import Mathlib

/-!
Verification of the OFC Pineapple solver core: a shallow embedding of the
card encoding, hand evaluator, board, scoring and Monte-Carlo solver
(`src/ofc/card.py`, `evaluator.py`, `board.py`, `scoring.py`, `solver.py`),
with theorems settling the specification's claims about them.

Cards are integers 0..51 (`rank * 4 + suit`), modelled as `Nat`.  Python
lists become `List Nat`, fallible operations (Python exceptions) return
`Option`, and the integer scores (which can be negative) live in `Int`.
-/

namespace OFC

/-! ## Card helpers (`src/ofc/card.py`) -/

/-- Rank index of a card, 0 = Two .. 12 = Ace (`card_rank`, `card >> 2`). -/
def card_rank (card : Nat) : Nat := card / 4

/-- Suit index of a card, 0 = clubs .. 3 = spades (`card_suit`, `card & 3`). -/
def card_suit (card : Nat) : Nat := card % 4

/-! ## Sorting helpers

Python's `sorted(ranks, reverse=True)` is a stable descending sort; on
natural numbers any descending sort agrees with it, so a descending
insertion sort stands in for it. -/

/-- Insert a number into a descending-sorted list, keeping it descending. -/
def insertDesc (a : Nat) : List Nat → List Nat
  | [] => [a]
  | b :: t => if b ≤ a then a :: b :: t else b :: insertDesc a t

/-- Descending insertion sort, the embedding of `sorted(_, reverse=True)`. -/
def sortDesc : List Nat → List Nat
  | [] => []
  | a :: t => insertDesc a (sortDesc t)

/-- Remove consecutive duplicates of a sorted list; on a descending-sorted
list this yields the distinct values in descending order, the embedding of
`sorted(set(ranks), reverse=True)`. -/
def dedupSorted : List Nat → List Nat
  | [] => []
  | [a] => [a]
  | a :: b :: t => if a = b then dedupSorted (b :: t) else a :: dedupSorted (b :: t)

/-! ## Card tokens (`src/ofc/card.py`)

Python strings become character lists, so `len`, indexing and
`startswith` translate directly. -/

/-- Rank characters in rank order (`RANK_CHARS = "23456789TJQKA"`). -/
def RANK_CHARS : List Char :=
  ['2', '3', '4', '5', '6', '7', '8', '9', 'T', 'J', 'Q', 'K', 'A']

/-- Suit characters in suit order (`SUIT_CHARS = "cdhs"`). -/
def SUIT_CHARS : List Char := ['c', 'd', 'h', 's']

/-- Rank-character lookup (`RANK_MAP = {c: i for i, c in
enumerate(RANK_CHARS)}`); `none` when the character is not a rank. -/
def rankMap (c : Char) : Option Nat := RANK_CHARS.indexOf? c

/-- Suit-character lookup (`SUIT_MAP`). -/
def suitMap (c : Char) : Option Nat := SUIT_CHARS.indexOf? c

/-- Parse a card token (`card_from_str`): a 3-character token starting
"10" is first rewritten to a 'T' token, then the token must have exactly
2 characters, an uppercased rank in `RANK_MAP` and a lowercased suit in
`SUIT_MAP`; `none` embeds the `ValueError` on wrong length or an
unrecognized rank or suit. -/
def card_from_str (l : List Char) : Option Nat :=
  let l2 := if l.length == 3 && l.take 2 == ['1', '0'] then 'T' :: l.drop 2 else l
  if l2.length != 2 then none
  else
    match rankMap (l2.getD 0 ' ').toUpper, suitMap (l2.getD 1 ' ').toLower with
    | some ri, some si => some (ri * 4 + si)
    | _, _ => none

/-- Format a card as its 2-character token (`card_to_str`). -/
def card_to_str (card : Nat) : List Char :=
  [RANK_CHARS.getD (card_rank card) ' ', SUIT_CHARS.getD (card_suit card) ' ']

/-- Canonical 2-character form of a valid token, following the spec's
round-trip law: "10" collapses to 'T', the rank uppercases and the suit
lowercases. -/
def canonicalTok : List Char → List Char
  | ['1', '0', c] => ['T', c.toLower]
  | [r, su] => [r.toUpper, su.toLower]
  | l => l

/-- Every character accepted as a rank (both cases of each entry of
`RANK_CHARS`). -/
def validRankChars : List Char :=
  ['2', '3', '4', '5', '6', '7', '8', '9', 'T', 't', 'J', 'j', 'Q', 'q', 'K', 'k',
   'A', 'a']

/-- Every character accepted as a suit (both cases of each entry of
`SUIT_CHARS`). -/
def validSuitChars : List Char := ['c', 'C', 'd', 'D', 'h', 'H', 's', 'S']

/-- Every valid token: a rank character and a suit character, plus the
"10"-prefixed forms standing for a Ten. -/
def validTokens : List (List Char) :=
  (validRankChars.flatMap (fun r => validSuitChars.map (fun su => [r, su])))
    ++ validSuitChars.map (fun su => ['1', '0', su])

/-! ## Hand evaluator (`src/ofc/evaluator.py`) -/

def HAND_ROYAL_FLUSH : Nat := 1
def HAND_STRAIGHT_FLUSH : Nat := 2
def HAND_FOUR_KIND : Nat := 3
def HAND_FULL_HOUSE : Nat := 4
def HAND_FLUSH : Nat := 5
def HAND_STRAIGHT : Nat := 6
def HAND_THREE_KIND : Nat := 7
def HAND_TWO_PAIR : Nat := 8
def HAND_ONE_PAIR : Nat := 9
def HAND_HIGH_CARD : Nat := 10

def FRONT_THREE_KIND : Nat := 1
def FRONT_ONE_PAIR : Nat := 2
def FRONT_HIGH_CARD : Nat := 3

/-- Pack a descending rank list into one comparable integer (`_rank_key`). -/
def rankKey (sortedRanks : List Nat) : Nat :=
  sortedRanks.foldl (fun result r => result * 13 + r) 0

/-- Distinct ranks of a hand in descending order; the first-occurrence
iteration order of `Counter(ranks)` when `ranks` is descending-sorted. -/
def distinctDesc (ranks : List Nat) : List Nat := dedupSorted (sortDesc ranks)

/-- Ranks that appear exactly `n` times, in descending order
(`_ranks_with_count`; `Counter` iterates ranks in first-occurrence order,
which for the descending-sorted rank list is descending). -/
def ranksWithCount (ranks : List Nat) (n : Nat) : List Nat :=
  (distinctDesc ranks).filter (fun r => ranks.count r == n)

/-- The rank appearing exactly `n` times (`_rank_with_count`).  The Python
raises `ValueError` when no rank matches; every call site guarantees a
match, so the default 0 of the empty case is never produced there. -/
def rankWithCount (ranks : List Nat) (n : Nat) : Nat :=
  match ranksWithCount ranks n with
  | r :: _ => r
  | [] => 0

/-- Multiplicities of the distinct ranks, sorted descending
(`sorted(rank_counts.values(), reverse=True)`). -/
def countShape (ranks : List Nat) : List Nat :=
  sortDesc ((distinctDesc ranks).map (fun r => ranks.count r))

/-- Evaluate a 5-card hand into `(hand_class, rank_value)` (`evaluate_5`);
class 1..10 with lower better, rank value the packed tie-break with higher
better.  The Python asserts exactly 5 cards; this embedding is applied only
to 5-card lists. -/
def evaluate_5 (cards : List Nat) : Nat × Nat :=
  let ranks := sortDesc (cards.map card_rank)
  let suits := cards.map card_suit
  let isFlush : Bool := (dedupSorted (sortDesc suits)).length == 1
  let uniq := dedupSorted ranks
  let isStraight : Bool :=
    uniq.length == 5 && (uniq.headD 0 - uniq.getLastD 0 == 4 || uniq == [12, 3, 2, 1, 0])
  let straightHigh : Nat :=
    if uniq.length == 5 then
      if uniq.headD 0 - uniq.getLastD 0 == 4 then uniq.headD 0
      else if uniq == [12, 3, 2, 1, 0] then 3
      else 0
    else 0
  let counts := countShape ranks
  if isStraight && isFlush then
    if straightHigh == 12 then (HAND_ROYAL_FLUSH, rankKey ranks)
    else (HAND_STRAIGHT_FLUSH, straightHigh)
  else if counts == [4, 1] then
    (HAND_FOUR_KIND, rankWithCount ranks 4 * 13 + rankWithCount ranks 1)
  else if counts == [3, 2] then
    (HAND_FULL_HOUSE, rankWithCount ranks 3 * 13 + rankWithCount ranks 2)
  else if isFlush then
    (HAND_FLUSH, rankKey ranks)
  else if isStraight then
    (HAND_STRAIGHT, straightHigh)
  else if counts == [3, 1, 1] then
    let kickers := sortDesc (ranksWithCount ranks 1)
    (HAND_THREE_KIND, rankWithCount ranks 3 * 169 + kickers.headD 0 * 13 + kickers.getD 1 0)
  else if counts == [2, 2, 1] then
    let pairs := sortDesc (ranksWithCount ranks 2)
    (HAND_TWO_PAIR, pairs.headD 0 * 169 + pairs.getD 1 0 * 13 + rankWithCount ranks 1)
  else if counts == [2, 1, 1, 1] then
    let kickers := sortDesc (ranksWithCount ranks 1)
    (HAND_ONE_PAIR, rankWithCount ranks 2 * 2197 + kickers.headD 0 * 169
      + kickers.getD 1 0 * 13 + kickers.getD 2 0)
  else
    (HAND_HIGH_CARD, rankKey ranks)

/-- Single comparable score of a 5-card hand, lower = better
(`evaluate_5_score`, `hand_class * 100_000_000 - rank_value`). -/
def evaluate_5_score (cards : List Nat) : Int :=
  let (handClass, rankValue) := evaluate_5 cards
  (handClass : Int) * 100000000 - rankValue

/-- Evaluate a 3-card front-row hand (`evaluate_3`): trips, pair or high
card only.  The Python asserts exactly 3 cards. -/
def evaluate_3 (cards : List Nat) : Nat × Nat :=
  let ranks := sortDesc (cards.map card_rank)
  let counts := countShape ranks
  if counts == [3] then
    (FRONT_THREE_KIND, ranks.headD 0)
  else if counts == [2, 1] then
    (FRONT_ONE_PAIR, rankWithCount ranks 2 * 13 + rankWithCount ranks 1)
  else
    (FRONT_HIGH_CARD, ranks.headD 0 * 169 + ranks.getD 1 0 * 13 + ranks.getD 2 0)

/-- Single comparable score of a 3-card hand, lower = better
(`evaluate_3_score`). -/
def evaluate_3_score (cards : List Nat) : Int :=
  let (handClass, rankValue) := evaluate_3 cards
  (handClass : Int) * 100000 - rankValue

/-- Compare two 5-card hands (`compare_5`): 1 when a wins, -1 when b wins,
0 on a tie (lower score = better hand). -/
def compare_5 (hand_a hand_b : List Nat) : Int :=
  let score_a := evaluate_5_score hand_a
  let score_b := evaluate_5_score hand_b
  if score_a < score_b then 1 else if score_b < score_a then -1 else 0

/-- Compare two 3-card hands (`compare_3`). -/
def compare_3 (hand_a hand_b : List Nat) : Int :=
  let score_a := evaluate_3_score hand_a
  let score_b := evaluate_3_score hand_b
  if score_a < score_b then 1 else if score_b < score_a then -1 else 0

/-- Modelled from the spec: `board.py` imports `compare_middle_front` from
`ofc.evaluator`, but no definition of it appears in the evaluator source, so
this follows the spec's words.  It is the restricted front-vs-middle
cross-row check used only for fouling: the front's trips/pair/high-card
classification is mapped onto the corresponding 5-card categories (Three of
a Kind, One Pair, High Card) and compared against the middle's 5-card
classification; on equal categories the house rule compares the category's
leading rank (trip rank, pair rank, or top card).  Result is positive when
the middle is stronger, negative when the front is strictly stronger (a
foul), and zero otherwise; it is not a generic cross-arity comparator. -/
def compare_middle_front (middle front : List Nat) : Int :=
  let (mc, mv) := evaluate_5 middle
  let (fc, fv) := evaluate_3 front
  let fc5 : Nat :=
    if fc == FRONT_THREE_KIND then HAND_THREE_KIND
    else if fc == FRONT_ONE_PAIR then HAND_ONE_PAIR
    else HAND_HIGH_CARD
  if mc < fc5 then 1
  else if fc5 < mc then -1
  else
    let mLead : Nat :=
      if mc == HAND_THREE_KIND then mv / 169
      else if mc == HAND_ONE_PAIR then mv / 2197
      else mv / 28561
    let fLead : Nat :=
      if fc == FRONT_THREE_KIND then fv
      else if fc == FRONT_ONE_PAIR then fv / 13
      else fv / 169
    if fLead < mLead then 1 else if mLead < fLead then -1 else 0

/-! ## Board (`src/ofc/board.py`) -/

/-- Board row identifiers (`Row`, an `IntEnum` with FRONT=0, MIDDLE=1,
BACK=2). -/
inductive Row
  | FRONT
  | MIDDLE
  | BACK
deriving DecidableEq, Repr

/-- The integer value of a row (`Row` is an `IntEnum`). -/
def Row.toNat : Row → Nat
  | .FRONT => 0
  | .MIDDLE => 1
  | .BACK => 2

/-- Per-row capacities (`ROW_CAPACITY`). -/
def ROW_CAPACITY : Row → Nat
  | .FRONT => 3
  | .MIDDLE => 5
  | .BACK => 5

/-- The rows in `list(Row)` order. -/
def rowsList : List Row := [Row.FRONT, Row.MIDDLE, Row.BACK]

/-- A single player's board (`OFCBoard`): one ordered card list per row. -/
structure OFCBoard where
  front : List Nat := []
  middle : List Nat := []
  back : List Nat := []
deriving DecidableEq, Repr

instance : Inhabited OFCBoard := ⟨{}⟩

/-- Cards in a given row (`OFCBoard.row`). -/
def OFCBoard.row (b : OFCBoard) : Row → List Nat
  | .FRONT => b.front
  | .MIDDLE => b.middle
  | .BACK => b.back

/-- Number of empty slots in a row (`OFCBoard.row_remaining`). -/
def OFCBoard.row_remaining (b : OFCBoard) (r : Row) : Nat :=
  ROW_CAPACITY r - (b.row r).length

/-- Whether a card can be placed in the given row (`OFCBoard.can_place`). -/
def OFCBoard.can_place (b : OFCBoard) (r : Row) : Bool :=
  decide (0 < b.row_remaining r)

/-- Place a card in the given row (`OFCBoard.place_card`); `none` embeds the
`RowFull` `ValueError` raised when the row is at capacity. -/
def OFCBoard.place_card (b : OFCBoard) (r : Row) (card : Nat) : Option OFCBoard :=
  if ROW_CAPACITY r ≤ (b.row r).length then none
  else some (match r with
    | .FRONT => { b with front := b.front ++ [card] }
    | .MIDDLE => { b with middle := b.middle ++ [card] }
    | .BACK => { b with back := b.back ++ [card] })

/-- Total number of cards on the board (`OFCBoard.total_cards`). -/
def OFCBoard.total_cards (b : OFCBoard) : Nat :=
  b.front.length + b.middle.length + b.back.length

/-- The board is complete when all 13 slots are filled
(`OFCBoard.is_complete`). -/
def OFCBoard.is_complete (b : OFCBoard) : Bool :=
  b.total_cards == 13

def OFCBoard.is_front_full (b : OFCBoard) : Bool := b.front.length == 3

def OFCBoard.is_middle_full (b : OFCBoard) : Bool := b.middle.length == 5

def OFCBoard.is_back_full (b : OFCBoard) : Bool := b.back.length == 5

/-- Whether a complete board is fouled (`OFCBoard.is_fouled`): back weaker
than middle (5-vs-5 scores), or front stronger than middle under the
restricted cross-row check; `false` on incomplete boards. -/
def OFCBoard.is_fouled (b : OFCBoard) : Bool :=
  if !b.is_complete then false
  else if evaluate_5_score b.middle < evaluate_5_score b.back then true
  else if compare_middle_front b.middle b.front < 0 then true
  else false

/-- All cards currently on the board (`OFCBoard.all_cards`). -/
def OFCBoard.all_cards (b : OFCBoard) : List Nat :=
  b.front ++ b.middle ++ b.back

/-! ## Game state (`src/ofc/board.py`) -/

/-- Full game state for a hand (`GameState`). -/
structure GameState where
  board : OFCBoard := {}
  opponent_board : OFCBoard := {}
  hand : List Nat := []
  dead_cards : List Nat := []
  fantasyland : Bool := false
  round_num : Nat := 0
deriving DecidableEq, Repr

/-- Whether this is the first deal (`GameState.is_initial_deal`). -/
def GameState.is_initial_deal (st : GameState) : Bool :=
  st.round_num == 0

/-- All cards known to the player (`GameState.all_known_cards`): both
boards, the hand and the dead cards.  The Python builds a set; only
membership in it is ever used, so a concatenated list stands in for it. -/
def GameState.all_known_cards (st : GameState) : List Nat :=
  st.board.all_cards ++ st.opponent_board.all_cards ++ st.hand ++ st.dead_cards

/-! ## Scoring (`src/ofc/scoring.py`) -/

/-- Back-row royalty table (`BACK_ROYALTIES`). -/
def BACK_ROYALTIES (handClass : Nat) : Nat :=
  if handClass == HAND_STRAIGHT then 2
  else if handClass == HAND_FLUSH then 4
  else if handClass == HAND_FULL_HOUSE then 6
  else if handClass == HAND_FOUR_KIND then 10
  else if handClass == HAND_STRAIGHT_FLUSH then 15
  else if handClass == HAND_ROYAL_FLUSH then 25
  else 0

/-- Middle-row royalty table (`MIDDLE_ROYALTIES`). -/
def MIDDLE_ROYALTIES (handClass : Nat) : Nat :=
  if handClass == HAND_THREE_KIND then 2
  else if handClass == HAND_STRAIGHT then 4
  else if handClass == HAND_FLUSH then 8
  else if handClass == HAND_FULL_HOUSE then 12
  else if handClass == HAND_FOUR_KIND then 20
  else if handClass == HAND_STRAIGHT_FLUSH then 30
  else if handClass == HAND_ROYAL_FLUSH then 50
  else 0

/-- Front-row pair royalty table (`FRONT_PAIR_ROYALTIES`): pair of Sixes
(rank 4) = 1 up to pair of Aces (rank 12) = 9, 0 below Sixes. -/
def FRONT_PAIR_ROYALTIES (pairRank : Nat) : Nat :=
  if 4 ≤ pairRank && pairRank ≤ 12 then pairRank - 3 else 0

/-- Base royalty for front-row trips (`FRONT_TRIP_BASE_ROYALTY`). -/
def FRONT_TRIP_BASE_ROYALTY : Nat := 10

/-- Royalties for the back row (`royalties_back`). -/
def royalties_back (cards : List Nat) : Nat :=
  if cards.length != 5 then 0
  else BACK_ROYALTIES (evaluate_5 cards).1

/-- Royalties for the middle row (`royalties_middle`). -/
def royalties_middle (cards : List Nat) : Nat :=
  if cards.length != 5 then 0
  else MIDDLE_ROYALTIES (evaluate_5 cards).1

/-- Royalties for the front row (`royalties_front`). -/
def royalties_front (cards : List Nat) : Nat :=
  if cards.length != 3 then 0
  else
    let (handClass, rankValue) := evaluate_3 cards
    if handClass == FRONT_THREE_KIND then FRONT_TRIP_BASE_ROYALTY + rankValue
    else if handClass == FRONT_ONE_PAIR then FRONT_PAIR_ROYALTIES (rankValue / 13)
    else 0

/-- Total royalties of a board (`total_royalties`): 0 when incomplete or
fouled, otherwise the sum over the three rows. -/
def total_royalties (board : OFCBoard) : Nat :=
  if !board.is_complete then 0
  else if board.is_fouled then 0
  else royalties_front board.front + royalties_middle board.middle + royalties_back board.back

/-- Head-to-head score of two complete boards (`score_head_to_head`); `none`
embeds the failed completeness assertion. -/
def score_head_to_head (my_board opp_board : OFCBoard) : Option Int :=
  if !(my_board.is_complete && opp_board.is_complete) then none
  else
    let my_fouled := my_board.is_fouled
    let opp_fouled := opp_board.is_fouled
    if my_fouled && opp_fouled then some 0
    else if my_fouled then some (-(6 + (total_royalties opp_board : Int)))
    else if opp_fouled then some (6 + (total_royalties my_board : Int))
    else
      let front_result := compare_3 my_board.front opp_board.front
      let middle_result := compare_5 my_board.middle opp_board.middle
      let back_result := compare_5 my_board.back opp_board.back
      let results := [front_result, middle_result, back_result]
      let rows_won := results.countP (fun r => decide (0 < r))
      let rows_lost := results.countP (fun r => decide (r < 0))
      let base : Int := (rows_won : Int) - (rows_lost : Int)
      let withScoop : Int :=
        if rows_won == 3 then base + 3
        else if rows_lost == 3 then base - 3
        else base
      some (withScoop + ((total_royalties my_board : Int) - (total_royalties opp_board : Int)))

/-- Fantasyland qualification (`qualifies_fantasyland`): complete non-fouled
board with trips or a pair of Queens-or-better in front. -/
def qualifies_fantasyland (board : OFCBoard) : Bool :=
  if !board.is_complete || board.is_fouled then false
  else
    let (handClass, rankValue) := evaluate_3 board.front
    if handClass == FRONT_THREE_KIND then true
    else if handClass == FRONT_ONE_PAIR then decide (10 ≤ rankValue / 13)
    else false

/-- Royalty estimate for a partially-filled board (`estimate_royalties`):
actual royalties of each full row, 0 for incomplete rows.  The Python value
is a float whose value is always a nonnegative integer. -/
def estimate_royalties (board : OFCBoard) : Nat :=
  (if board.is_front_full then royalties_front board.front else 0)
  + (if board.is_middle_full then royalties_middle board.middle else 0)
  + (if board.is_back_full then royalties_back board.back else 0)

/-! ## Solver (`src/ofc/solver.py`) -/

/-- A single card placement (`Placement`): which card goes to which row. -/
structure Placement where
  card : Nat
  row : Row
deriving DecidableEq, Repr

/-- Extra expected-value points for qualifying for Fantasyland
(`FANTASYLAND_BONUS`). -/
def FANTASYLAND_BONUS : Nat := 8

/-- All length-`n` tuples over `rows`, in `itertools.product(rows,
repeat=n)` order (leftmost position varies slowest). -/
def rowProduct (rows : List Row) : Nat → List (List Row)
  | 0 => [[]]
  | n + 1 => rows.flatMap (fun r => (rowProduct rows n).map (fun rest => r :: rest))

/-- Lexicographic comparison of `(card, row)` pairs, Python tuple order. -/
def pairLe (a b : Nat × Nat) : Bool :=
  a.1 < b.1 || (a.1 == b.1 && a.2 ≤ b.2)

def insertPairAsc (x : Nat × Nat) : List (Nat × Nat) → List (Nat × Nat)
  | [] => [x]
  | y :: t => if pairLe x y then x :: y :: t else y :: insertPairAsc x t

/-- Ascending sort of `(card, row)` pairs (`sorted(...)` on tuples). -/
def sortPairsAsc : List (Nat × Nat) → List (Nat × Nat)
  | [] => []
  | x :: t => insertPairAsc x (sortPairsAsc t)

/-- Deduplication key of a placement list: the sorted `(card, row)` pairs
(`tuple(sorted((p.card, p.row) for p in placements))`). -/
def placementKey (ps : List Placement) : List (Nat × Nat) :=
  sortPairsAsc (ps.map (fun p => (p.card, p.row.toNat)))

/-- Keep the first occurrence of each key (the `seen`-set deduplication
loop shared by both generators). -/
def dedupByKey {α β : Type} [BEq β] (key : α → β) : List α → List β → List α
  | [], _ => []
  | x :: t, seen =>
    if seen.contains (key x) then dedupByKey key t seen
    else x :: dedupByKey key t (key x :: seen)

/-- Whether a raw 5-card row assignment fits the row capacities.  The
Python increments per-row counters and breaks out on the first overflow;
the assignment reaches the `else` branch exactly when every row's total
count is within `ROW_CAPACITY`, which is what this computes.  Note the
check is against the absolute capacities, not the capacity remaining on
the current board. -/
def assignmentFits (a : List Row) : Bool :=
  rowsList.all (fun r => decide (a.count r ≤ ROW_CAPACITY r))

/-- Placements for the initial 5 cards (`_generate_initial_placements`):
every assignment of the 5 hand cards to the 3 rows that fits the absolute
capacities, deduplicated by the unordered `(card, row)` set.  The Python
asserts a 5-card hand. -/
def _generate_initial_placements (st : GameState) : List (List Placement × Option Nat) :=
  let hand := st.hand
  let options := ((rowProduct rowsList 5).filter assignmentFits).map
    (fun a => ((hand.zip a).map (fun cr => Placement.mk cr.1 cr.2), (none : Option Nat)))
  dedupByKey (fun o => placementKey o.1) options []

/-- Place each `(card, row)` pair in turn after a `can_place` check,
returning the placements made (the inner validity loop of
`_generate_pineapple_placements`); `none` when some row cannot take its
card. -/
def tryPlacePairs (b : OFCBoard) : List (Nat × Row) → Option (List Placement)
  | [] => some []
  | cr :: rest =>
    if b.can_place cr.2 then
      match b.place_card cr.2 cr.1 with
      | some b2 => (tryPlacePairs b2 rest).map (fun ps => Placement.mk cr.1 cr.2 :: ps)
      | none => none
    else none

/-- Placements for a pineapple round (`_generate_pineapple_placements`):
for each of the 3 discard choices, all row pairs for the two remaining
cards that fit the current board, deduplicated by (sorted `(card, row)`
pairs, discard).  The Python asserts a 3-card hand. -/
def _generate_pineapple_placements (st : GameState) : List (List Placement × Option Nat) :=
  let hand := st.hand
  let available_rows := rowsList.filter (fun r => st.board.can_place r)
  let options := (List.range 3).flatMap (fun discard_idx =>
    let discard_card := hand.getD discard_idx 0
    let place_cards := hand.eraseIdx discard_idx
    (rowProduct available_rows 2).filterMap (fun row_combo =>
      match tryPlacePairs st.board (place_cards.zip row_combo) with
      | some ps => if ps.length == 2 then some (ps, some discard_card) else none
      | none => none))
  dedupByKey (fun o => (placementKey o.1, o.2)) options []

/-- Apply a list of placements to a board in order (`for p in placements:
board.place_card(p.row, p.card)`); `none` embeds a `RowFull` error. -/
def applyPlacements (b : OFCBoard) : List Placement → Option OFCBoard
  | [] => some b
  | p :: t => (b.place_card p.row p.card).bind (fun b2 => applyPlacements b2 t)

/-- Fill one row while it has space and cards remain (one iteration of the
row loop in `_fill_board_greedy`); returns the board and the unused cards. -/
def fillRow (b : OFCBoard) (r : Row) : List Nat → OFCBoard × List Nat
  | [] => (b, [])
  | c :: t =>
    if b.can_place r then
      match b.place_card r c with
      | some b2 => fillRow b2 r t
      | none => (b, c :: t)
    else (b, c :: t)

/-- Fill the board's empty slots from `cards`, back row first, then middle,
then front (`_fill_board_greedy`). -/
def _fill_board_greedy (b : OFCBoard) (cards : List Nat) : OFCBoard :=
  let s1 := fillRow b Row.BACK cards
  let s2 := fillRow s1.1 Row.MIDDLE s1.2
  (fillRow s2.1 Row.FRONT s2.2).1

/-- Score a board for the solver (`_score_board`): royalty estimate when
incomplete, -10 when fouled, otherwise royalties plus the Fantasyland
bonus.  The Python float is always integer-valued. -/
def _score_board (board : OFCBoard) : Int :=
  if !board.is_complete then (estimate_royalties board : Int)
  else if board.is_fouled then -10
  else (total_royalties board : Int)
    + (if qualifies_fantasyland board then (FANTASYLAND_BONUS : Int) else 0)

/-- The capped binomial loop of `_max_combinations`: runs the given number
of steps of `result = result * (n - i) // (i + 1)`, returning 1,000,000 as
soon as the running value exceeds it. -/
def maxCombGo (n : Nat) : Nat → Nat → Nat → Nat
  | 0, _, result => result
  | steps + 1, i, result =>
    let result2 := result * (n - i) / (i + 1)
    if 1000000 < result2 then 1000000
    else maxCombGo n steps (i + 1) result2

/-- Binomial coefficient with a 1,000,000 cap (`_max_combinations`). -/
def _max_combinations (n k : Nat) : Nat :=
  if n < k then 0
  else if k == 0 || k == n then 1
  else maxCombGo n (min k (n - k)) 0 1

/-- Number of Monte-Carlo trials actually run (`actual_sims =
min(num_simulations, _max_combinations(len(remaining_deck),
slots_needed))`). -/
def actual_sims (num_simulations deckLen slots : Nat) : Nat :=
  min num_simulations (_max_combinations deckLen slots)

/-- Evaluate one placement by Monte-Carlo simulation
(`_evaluate_placement`).  The random draw of each trial
(`random.sample(remaining_deck, slots_needed)`) is supplied by the `draws`
oracle, one card list per trial index; `none` embeds a `RowFull` error
while applying the placements. -/
def _evaluate_placement (st : GameState) (placements : List Placement)
    (discard : Option Nat) (num_simulations : Nat) (draws : Nat → List Nat) : Option ℚ :=
  match applyPlacements st.board placements with
  | none => none
  | some board =>
    if board.is_complete then some ((_score_board board : ℚ))
    else
      let known := st.all_known_cards ++ placements.map (fun p => p.card) ++ discard.toList
      let remaining_deck := (List.range 52).filter (fun c => !known.contains c)
      let slots_needed := 13 - board.total_cards
      if slots_needed == 0 then some ((_score_board board : ℚ))
      else
        let actual := actual_sims num_simulations remaining_deck.length slots_needed
        let total : Int := ((List.range actual).map
          (fun i => _score_board (_fill_board_greedy board (draws i)))).sum
        some (if 0 < actual then (total : ℚ) / (actual : ℚ) else 0)

/-- Result of a solver computation (`SolverResult`).  The wall-clock
`elapsed_seconds` field is outside the embedding. -/
structure SolverResult where
  placements : List Placement
  discard : Option Nat
  expected_value : ℚ
  simulations : Nat
  all_options : List (List Placement × Option Nat × ℚ)
deriving DecidableEq, Repr

/-- Insert a scored option into a descending-by-EV list, before the first
entry whose EV is not greater; with `sortByEVDesc` this is the unique
stable descending sort, the embedding of `scored_options.sort(key=lambda x:
x[2], reverse=True)`. -/
def insertByEVDesc (x : List Placement × Option Nat × ℚ) :
    List (List Placement × Option Nat × ℚ) → List (List Placement × Option Nat × ℚ)
  | [] => [x]
  | y :: t => if y.2.2 ≤ x.2.2 then x :: y :: t else y :: insertByEVDesc x t

/-- Stable sort of scored options by expected value descending. -/
def sortByEVDesc :
    List (List Placement × Option Nat × ℚ) → List (List Placement × Option Nat × ℚ)
  | [] => []
  | x :: t => insertByEVDesc x (sortByEVDesc t)

/-- Collect a list of fallible results, failing when any fails (the Python
loop simply lets the exception escape). -/
def listTraverse {α : Type} : List (Option α) → Option (List α)
  | [] => some []
  | x :: t =>
    match x, listTraverse t with
    | some a, some l => some (a :: l)
    | _, _ => none

/-- The solver entry point (`solve`): generate candidate placements, score
each with `_evaluate_placement` (trial `i` of option `j` uses oracle draw
`draws j i`), sort by expected value descending, and return the best.
`none` embeds the `No valid placements available` error and any `RowFull`
escaping an evaluation. -/
def solve (st : GameState) (num_simulations : Nat) (draws : Nat → Nat → List Nat) :
    Option SolverResult :=
  let options :=
    if st.is_initial_deal then _generate_initial_placements st
    else _generate_pineapple_placements st
  if options.isEmpty then none
  else
    (listTraverse (options.enum.map (fun io =>
      (_evaluate_placement st io.2.1 io.2.2 num_simulations (draws io.1)).map
        (fun ev => (io.2.1, io.2.2, ev))))).bind (fun scored =>
      match sortByEVDesc scored with
      | [] => none
      | best :: rest =>
        some { placements := best.1, discard := best.2.1, expected_value := best.2.2,
               simulations := num_simulations, all_options := best :: rest })

/-! ## Heap model of the solver's board mutations (`src/ofc/solver.py`)

Python boards are mutable objects; `solve` promises never to mutate the
caller's boards, working only on `copy()`s.  To state that, boards live in
an explicit heap (`Heap`) and each Python board variable is a reference
(index) into it; `copy()` allocates, `place_card` mutates in place at a
reference.  The hand, dead-card list and scalar fields of the game state
are immutable values here because no solver code path writes to them —
every mutation in `solver.py` goes through `place_card` on some board.
The heap functions below mirror the pure embedding above, line for line,
threading the heap through every loop in program order. -/

/-- The heap of board objects. -/
abbrev Heap := List OFCBoard

/-- Read the board object a reference denotes. -/
def hGet (h : Heap) (i : Nat) : OFCBoard := h.getD i default

/-- A game state whose two boards are references into the heap
(`GameState` as the solver receives it). -/
structure HGameState where
  boardRef : Nat
  oppRef : Nat
  hand : List Nat := []
  dead_cards : List Nat := []
  fantasyland : Bool := false
  round_num : Nat := 0
deriving DecidableEq, Repr

/-- `board.copy()`: allocate an independent copy of the object at `i`,
returning the extended heap and the fresh reference. -/
def hCopy (h : Heap) (i : Nat) : Heap × Nat :=
  (h ++ [hGet h i], h.length)

/-- `board.place_card(row, card)` through a reference: mutates the object
at `i` in place; `none` embeds the `RowFull` error. -/
def hPlace (h : Heap) (i : Nat) (r : Row) (c : Nat) : Option Heap :=
  match (hGet h i).place_card r c with
  | some b2 => some (h.set i b2)
  | none => none

/-- `state.all_known_cards()` read through the heap. -/
def hKnown (h : Heap) (st : HGameState) : List Nat :=
  (hGet h st.boardRef).all_cards ++ (hGet h st.oppRef).all_cards
    ++ st.hand ++ st.dead_cards

/-- Apply a placement list through a reference (the placement loop of
`_evaluate_placement`). -/
def hApplyPlacements (h : Heap) (i : Nat) : List Placement → Option Heap
  | [] => some h
  | p :: t => (hPlace h i p.row p.card).bind (fun h2 => hApplyPlacements h2 i t)

/-- One row of `_fill_board_greedy` through a reference. -/
def hFillRow (h : Heap) (i : Nat) (r : Row) : List Nat → Heap × List Nat
  | [] => (h, [])
  | c :: t =>
    if (hGet h i).can_place r then
      match hPlace h i r c with
      | some h2 => hFillRow h2 i r t
      | none => (h, c :: t)
    else (h, c :: t)

/-- `_fill_board_greedy` through a reference. -/
def hFillGreedy (h : Heap) (i : Nat) (cards : List Nat) : Heap :=
  let s1 := hFillRow h i Row.BACK cards
  let s2 := hFillRow s1.1 i Row.MIDDLE s1.2
  (hFillRow s2.1 i Row.FRONT s2.2).1

/-- The Monte-Carlo trial loop of `_evaluate_placement`: each trial copies
the scratch board, fills the copy greedily from the oracle draw, and
scores it; returns the final heap and the total score. -/
def hTrialLoop (bi : Nat) (draws : Nat → List Nat) :
    List Nat → Heap → Heap × Int
  | [], h => (h, 0)
  | i :: rest, h =>
    let c := hCopy h bi
    let h2 := hFillGreedy c.1 c.2 (draws i)
    let sc := _score_board (hGet h2 c.2)
    let r := hTrialLoop bi draws rest h2
    (r.1, sc + r.2)

/-- The trial count of one heap-level evaluation (`actual_sims` applied to
the unseen-card count and the open-slot count read through the heap). -/
def hEvalActual (h2 : Heap) (st : HGameState) (placements : List Placement)
    (discard : Option Nat) (n : Nat) (bi : Nat) : Nat :=
  actual_sims n
    (((List.range 52).filter (fun cd =>
      !(hKnown h2 st ++ placements.map (fun p => p.card)
        ++ discard.toList).contains cd)).length)
    (13 - (hGet h2 bi).total_cards)

/-- The full trial loop of one heap-level evaluation. -/
def hEvalRun (h2 : Heap) (st : HGameState) (placements : List Placement)
    (discard : Option Nat) (n : Nat) (bi : Nat) (draws : Nat → List Nat) :
    Heap × Int :=
  hTrialLoop bi draws
    (List.range (hEvalActual h2 st placements discard n bi)) h2

/-- `_evaluate_placement` through the heap: copy the state's board, apply
the placements to the copy, and either score directly (complete board) or
run the trial loop; `none` embeds a `RowFull` error. -/
def hEvaluatePlacement (h : Heap) (st : HGameState) (placements : List Placement)
    (discard : Option Nat) (num_simulations : Nat) (draws : Nat → List Nat) :
    Option (Heap × ℚ) :=
  match hApplyPlacements (hCopy h st.boardRef).1 (hCopy h st.boardRef).2 placements with
  | none => none
  | some h2 =>
    if (hGet h2 (hCopy h st.boardRef).2).is_complete then
      some (h2, (_score_board (hGet h2 (hCopy h st.boardRef).2) : ℚ))
    else if 13 - (hGet h2 (hCopy h st.boardRef).2).total_cards == 0 then
      some (h2, (_score_board (hGet h2 (hCopy h st.boardRef).2) : ℚ))
    else
      some ((hEvalRun h2 st placements discard num_simulations
          (hCopy h st.boardRef).2 draws).1,
        if 0 < hEvalActual h2 st placements discard num_simulations
            (hCopy h st.boardRef).2 then
          (((hEvalRun h2 st placements discard num_simulations
              (hCopy h st.boardRef).2 draws).2 : Int) : ℚ)
            / ((hEvalActual h2 st placements discard num_simulations
              (hCopy h st.boardRef).2 : Nat) : ℚ)
        else 0)

/-- The validity loop inside a single row combination: place each card on
the copied board after a `can_place` check, keeping the partially mutated
copy on failure exactly as the Python loop does. -/
def hTryPlacePairs (h : Heap) (i : Nat) :
    List (Nat × Row) → Heap × Option (List Placement)
  | [] => (h, some [])
  | cr :: rest =>
    if (hGet h i).can_place cr.2 then
      match hPlace h i cr.2 cr.1 with
      | some h2 =>
        let r := hTryPlacePairs h2 i rest
        (r.1, r.2.map (fun ps => Placement.mk cr.1 cr.2 :: ps))
      | none => (h, none)
    else (h, none)

/-- The row-combination loop of `_generate_pineapple_placements`: each
combination copies the state's board and test-places the two cards on the
copy. -/
def hComboLoop (bi : Nat) (place_cards : List Nat) (discard_card : Nat) :
    List (List Row) → Heap → Heap × List (List Placement × Option Nat)
  | [], h => (h, [])
  | combo :: rest, h =>
    let c := hCopy h bi
    let tr := hTryPlacePairs c.1 c.2 (place_cards.zip combo)
    let r := hComboLoop bi place_cards discard_card rest tr.1
    (r.1,
      (match tr.2 with
        | some ps => if ps.length == 2 then [(ps, some discard_card)] else []
        | none => []) ++ r.2)

/-- `_generate_pineapple_placements` through the heap. -/
def hGenPineapple (h : Heap) (st : HGameState) :
    Heap × List (List Placement × Option Nat) :=
  let available_rows := rowsList.filter (fun r => (hGet h st.boardRef).can_place r)
  let step := fun (di : Nat) (h0 : Heap) =>
    hComboLoop st.boardRef (st.hand.eraseIdx di) (st.hand.getD di 0)
      (rowProduct available_rows 2) h0
  let s0 := step 0 h
  let s1 := step 1 s0.1
  let s2 := step 2 s1.1
  (s2.1, dedupByKey (fun o => (placementKey o.1, o.2)) (s0.2 ++ s1.2 ++ s2.2) [])

/-- `_generate_initial_placements` through the heap: it performs no board
operation at all (the capacity filter only counts the assignment), so the
heap is untouched. -/
def hGenInitial (st : HGameState) : List (List Placement × Option Nat) :=
  let options := ((rowProduct rowsList 5).filter assignmentFits).map
    (fun a => ((st.hand.zip a).map (fun cr => Placement.mk cr.1 cr.2),
      (none : Option Nat)))
  dedupByKey (fun o => placementKey o.1) options []

/-- The per-candidate evaluation loop of `solve` through the heap. -/
def hEvalLoop (st : HGameState) (n : Nat) (draws : Nat → Nat → List Nat) :
    List (Nat × (List Placement × Option Nat)) → Heap →
    Option (Heap × List (List Placement × Option Nat × ℚ))
  | [], h => some (h, [])
  | io :: rest, h =>
    match hEvaluatePlacement h st io.2.1 io.2.2 n (draws io.1) with
    | none => none
    | some (h2, ev) =>
      (hEvalLoop st n draws rest h2).map
        (fun hr => (hr.1, (io.2.1, io.2.2, ev) :: hr.2))

/-- Sort the scored options and package the solver result (the tail of
`solve` after the evaluation loop). -/
def hPackage (num_simulations : Nat)
    (hr : Heap × List (List Placement × Option Nat × ℚ)) :
    Option (Heap × SolverResult) :=
  match sortByEVDesc hr.2 with
  | [] => none
  | best :: rest =>
    some (hr.1,
      { placements := best.1, discard := best.2.1, expected_value := best.2.2,
        simulations := num_simulations, all_options := best :: rest })

/-- `solve` through the heap: generate candidates, evaluate each, sort,
and package the result; the returned heap records every allocation and
mutation the call performed. -/
def hSolve (h : Heap) (st : HGameState) (num_simulations : Nat)
    (draws : Nat → Nat → List Nat) : Option (Heap × SolverResult) :=
  if st.round_num == 0 then
    if (hGenInitial st).isEmpty then none
    else (hEvalLoop st num_simulations draws (hGenInitial st).enum h).bind
      (hPackage num_simulations)
  else
    if (hGenPineapple h st).2.isEmpty then none
    else (hEvalLoop st num_simulations draws (hGenPineapple h st).2.enum
      (hGenPineapple h st).1).bind (hPackage num_simulations)

/-! ## Theorems -/

/-- C5: the 5-card evaluator classifies the wheel A♥ 2♣ 3♦ 4♠ 5♥ as a
Straight — the 5-high straight, with straight-high rank 3 (the Five) — and
under the combined comparable score (lower = better) it loses to the 6-high
straight 6♥ 5♣ 4♦ 3♠ 2♥. -/
theorem wheel_is_lowest_straight :
    (evaluate_5 [50, 0, 5, 11, 14]).1 = HAND_STRAIGHT ∧
    evaluate_5 [50, 0, 5, 11, 14] = (HAND_STRAIGHT, 3) ∧
    (evaluate_5 [18, 12, 9, 7, 2]).1 = HAND_STRAIGHT ∧
    evaluate_5_score [18, 12, 9, 7, 2] < evaluate_5_score [50, 0, 5, 11, 14] := by
  decide

/-- C6: the per-row royalty values are exact.  Back row: Ts 9c 8h 7d 6s
(straight) = 2, Ah Th 8h 5h 3h (flush) = 4, Ah Ac Ad Ks Kc (full house)
= 6, Ah Ac Ad As 2c (quads) = 10, 9h 8h 7h 6h 5h (straight flush) = 15,
Ah Kh Qh Jh Th (royal flush) = 25; the same hands in the middle row score
4, 8, 12, 20, 30, 50.  Front row, over every rank r: a pair of r scores
r - 3 for Sixes (rank 4) through Aces (rank 12) — 1 up to 9 — and 0 for
Fives or lower; trips of r score 10 + r — 10 for Twos up to 22 for Aces;
a high-card front scores 0. -/
theorem royalty_tables_exact :
    royalties_back [35, 28, 26, 21, 19] = 2 ∧
    royalties_back [50, 34, 26, 14, 6] = 4 ∧
    royalties_back [50, 48, 49, 47, 44] = 6 ∧
    royalties_back [50, 48, 49, 51, 0] = 10 ∧
    royalties_back [30, 26, 22, 18, 14] = 15 ∧
    royalties_back [50, 46, 42, 38, 34] = 25 ∧
    royalties_middle [35, 28, 26, 21, 19] = 4 ∧
    royalties_middle [50, 34, 26, 14, 6] = 8 ∧
    royalties_middle [50, 48, 49, 47, 44] = 12 ∧
    royalties_middle [50, 48, 49, 51, 0] = 20 ∧
    royalties_middle [30, 26, 22, 18, 14] = 30 ∧
    royalties_middle [50, 46, 42, 38, 34] = 50 ∧
    ((List.range 13).all (fun r =>
      royalties_front [4 * r, 4 * r + 1, 4 * ((r + 1) % 13)]
        == (if 4 ≤ r then r - 3 else 0)) = true) ∧
    ((List.range 13).all (fun r =>
      royalties_front [4 * r, 4 * r + 1, 4 * r + 2] == 10 + r) = true) ∧
    royalties_front [18, 16, 1] = 1 ∧
    royalties_front [50, 48, 1] = 9 ∧
    royalties_front [2, 0, 1] = 10 ∧
    royalties_front [50, 48, 49] = 22 ∧
    royalties_front [14, 12, 1] = 0 ∧
    royalties_front [50, 44, 1] = 0 := by
  decide

/-- C1: on a complete board, `is_fouled` is true exactly when the back
5-card hand is weaker than the middle 5-card hand (its combined score is
larger, lower = better), or the front row is stronger than the middle row
under the restricted front-vs-middle cross-row check. -/
theorem is_fouled_spec (b : OFCBoard) (hb : b.is_complete = true) :
    b.is_fouled = true ↔
      (evaluate_5_score b.middle < evaluate_5_score b.back ∨
       compare_middle_front b.middle b.front < 0) := by
  simp only [OFCBoard.is_fouled, hb, Bool.not_true, Bool.false_eq_true, if_false]
  split_ifs with h1 h2 <;> simp_all

/-- Witness for C1 at a concrete complete board (front A♥ A♣ 3♦, middle
K♠ K♣ K♦ Q♠ Q♣, back 3♥ 3♣ 9♦ 7♠ 5♣, which fouls: the back pair is weaker
than the middle full house). -/
theorem is_fouled_spec_witness :
    (OFCBoard.mk [50, 48, 5] [47, 44, 45, 43, 40] [6, 4, 29, 23, 12]).is_fouled = true ↔
      (evaluate_5_score (OFCBoard.mk [50, 48, 5] [47, 44, 45, 43, 40]
          [6, 4, 29, 23, 12]).middle
        < evaluate_5_score (OFCBoard.mk [50, 48, 5] [47, 44, 45, 43, 40]
            [6, 4, 29, 23, 12]).back ∨
       compare_middle_front (OFCBoard.mk [50, 48, 5] [47, 44, 45, 43, 40]
            [6, 4, 29, 23, 12]).middle
          (OFCBoard.mk [50, 48, 5] [47, 44, 45, 43, 40] [6, 4, 29, 23, 12]).front < 0) :=
  is_fouled_spec (OFCBoard.mk [50, 48, 5] [47, 44, 45, 43, 40] [6, 4, 29, 23, 12])
    (by decide)

/-- Swapping the hands negates the 5-card comparator. -/
theorem compare_5_antisymm (a b : List Nat) : compare_5 b a = -compare_5 a b := by
  simp only [compare_5]
  split_ifs <;> omega

/-- Swapping the hands negates the 3-card comparator. -/
theorem compare_3_antisymm (a b : List Nat) : compare_3 b a = -compare_3 a b := by
  simp only [compare_3]
  split_ifs <;> omega

/-- The 3-card comparator only returns 1, -1 or 0. -/
theorem compare_3_cases (a b : List Nat) :
    compare_3 a b = 1 ∨ compare_3 a b = -1 ∨ compare_3 a b = 0 := by
  simp only [compare_3]
  split_ifs <;> simp

/-- The 5-card comparator only returns 1, -1 or 0. -/
theorem compare_5_cases (a b : List Nat) :
    compare_5 a b = 1 ∨ compare_5 a b = -1 ∨ compare_5 a b = 0 := by
  simp only [compare_5]
  split_ifs <;> simp

/-- C2: head-to-head scoring of two complete boards.  Both fouled → 0;
exactly one fouled → the fouled side loses (and the opponent gains) 6 plus
the non-fouled opponent's royalty total; neither fouled → +1 per row won
and -1 per row lost (front by the 3-card comparator, middle and back by
the 5-card comparator), +3 when all three rows are won and -3 when all
three are lost, plus the royalty difference. -/
theorem score_head_to_head_spec (A B : OFCBoard)
    (hA : A.is_complete = true) (hB : B.is_complete = true) :
    (A.is_fouled = true → B.is_fouled = true → score_head_to_head A B = some 0) ∧
    (A.is_fouled = true → B.is_fouled = false →
      score_head_to_head A B = some (-(6 + (total_royalties B : Int)))) ∧
    (A.is_fouled = false → B.is_fouled = true →
      score_head_to_head A B = some (6 + (total_royalties A : Int))) ∧
    (A.is_fouled = false → B.is_fouled = false →
      score_head_to_head A B = some (
        let results := [compare_3 A.front B.front, compare_5 A.middle B.middle,
          compare_5 A.back B.back]
        let won := results.countP (fun r => decide (0 < r))
        let lost := results.countP (fun r => decide (r < 0))
        ((won : Int) - (lost : Int))
          + (if won = 3 then 3 else if lost = 3 then -3 else 0)
          + ((total_royalties A : Int) - (total_royalties B : Int)))) := by
  refine ⟨?_, ?_, ?_, ?_⟩ <;> intro h1 h2
  · simp [score_head_to_head, hA, hB, h1, h2]
  · simp [score_head_to_head, hA, hB, h1, h2]
  · simp [score_head_to_head, hA, hB, h1, h2]
  · simp [score_head_to_head, hA, hB, h1, h2]
    split_ifs <;> omega

/-- C2 witness: a fouled board against a fouled board scores 0 (front
A♥ A♣ 3♦ over middle trips-heavy rows on both sides, both boards complete
and fouled). -/
theorem score_head_to_head_spec_witness :
    score_head_to_head (OFCBoard.mk [50, 48, 5] [47, 44, 45, 43, 40] [6, 4, 29, 23, 12])
      (OFCBoard.mk [38, 37, 9] [35, 33, 32, 27, 24] [2, 3, 17, 11, 8]) = some 0 :=
  (score_head_to_head_spec
      (OFCBoard.mk [50, 48, 5] [47, 44, 45, 43, 40] [6, 4, 29, 23, 12])
      (OFCBoard.mk [38, 37, 9] [35, 33, 32, 27, 24] [2, 3, 17, 11, 8])
      (by decide) (by decide)).1 (by decide) (by decide)

/-- C10: head-to-head scoring is zero-sum: the score of board A against
board B is the negation of the score of B against A (and the two
directions fail together when a board is incomplete). -/
theorem score_head_to_head_antisymm (A B : OFCBoard) :
    score_head_to_head A B = (score_head_to_head B A).map (fun z => -z) := by
  have hf := compare_3_antisymm A.front B.front
  have hm := compare_5_antisymm A.middle B.middle
  have hb := compare_5_antisymm A.back B.back
  by_cases hcA : A.is_complete <;> by_cases hcB : B.is_complete
  · by_cases hfA : A.is_fouled <;> by_cases hfB : B.is_fouled
    · simp [score_head_to_head, hcA, hcB, hfA, hfB]
    · simp [score_head_to_head, hcA, hcB, hfA, hfB]
    · simp [score_head_to_head, hcA, hcB, hfA, hfB]
    · rcases compare_3_cases A.front B.front with h1 | h1 | h1 <;>
        rcases compare_5_cases A.middle B.middle with h2 | h2 | h2 <;>
        rcases compare_5_cases A.back B.back with h3 | h3 | h3 <;>
        simp [score_head_to_head, hcA, hcB, hfA, hfB, hf, hm, hb, h1, h2, h3] <;>
        omega
  · simp [score_head_to_head, hcA, hcB]
  · simp [score_head_to_head, hcA, hcB]
  · simp [score_head_to_head, hcA, hcB]

/-- Members of the deduplicated option list come from the input list. -/
theorem mem_of_mem_dedupByKey {α β : Type} [BEq β] (key : α → β) :
    ∀ (l : List α) (seen : List β) (x : α), x ∈ dedupByKey key l seen → x ∈ l := by
  intro l
  induction l with
  | nil => intro seen x h; simp [dedupByKey] at h
  | cons a t ih =>
    intro seen x h
    unfold dedupByKey at h
    split at h
    · exact List.mem_cons_of_mem a (ih _ x h)
    · rcases List.mem_cons.mp h with h | h
      · exact h ▸ List.mem_cons_self a t
      · exact List.mem_cons_of_mem a (ih _ x h)

/-- Every tuple produced by `rowProduct` has the requested length. -/
theorem length_of_mem_rowProduct (rows : List Row) :
    ∀ (n : Nat) (a : List Row), a ∈ rowProduct rows n → a.length = n := by
  intro n
  induction n with
  | zero =>
    intro a h
    simp only [rowProduct, List.mem_singleton] at h
    simp [h]
  | succ k ih =>
    intro a h
    simp only [rowProduct, List.mem_flatMap, List.mem_map] at h
    obtain ⟨r, _, rest, hrest, rfl⟩ := h
    simp [ih rest hrest]

/-- Placing a card succeeds exactly below capacity. -/
theorem place_card_isSome (b : OFCBoard) (r : Row) (c : Nat)
    (h : (b.row r).length < ROW_CAPACITY r) : (b.place_card r c).isSome = true := by
  unfold OFCBoard.place_card
  rw [if_neg (by omega)]
  rfl

/-- Placing a card grows the target row by one and leaves the others. -/
theorem place_card_row_length (b : OFCBoard) (r : Row) (c : Nat) (b2 : OFCBoard)
    (h : b.place_card r c = some b2) (r2 : Row) :
    (b2.row r2).length = (b.row r2).length + (if r2 = r then 1 else 0) := by
  unfold OFCBoard.place_card at h
  split at h
  · exact absurd h (by simp)
  · injection h with h
    subst h
    cases r <;> cases r2 <;> simp [OFCBoard.row]

/-- Applying a placement list succeeds whenever each row has room for the
cards sent to it on top of its current occupancy. -/
theorem applyPlacements_isSome :
    ∀ (ps : List Placement) (b : OFCBoard),
      (∀ r : Row, (b.row r).length + ps.countP (fun p => p.row == r) ≤ ROW_CAPACITY r) →
      (applyPlacements b ps).isSome = true := by
  intro ps
  induction ps with
  | nil => intro b _; simp [applyPlacements]
  | cons p t ih =>
    intro b hcap
    have hlt : (b.row p.row).length < ROW_CAPACITY p.row := by
      have h := hcap p.row
      rw [List.countP_cons] at h
      simp only [beq_self_eq_true, if_pos] at h
      omega
    obtain ⟨b2, hb2⟩ : ∃ b2, b.place_card p.row p.card = some b2 :=
      Option.isSome_iff_exists.mp (place_card_isSome b p.row p.card hlt)
    unfold applyPlacements
    rw [hb2, Option.some_bind]
    apply ih
    intro r
    have hr := place_card_row_length b p.row p.card b2 hb2 r
    have h := hcap r
    rw [List.countP_cons] at h
    by_cases hpr : p.row = r
    · subst hpr
      simp only [beq_self_eq_true, if_pos] at h
      rw [if_pos rfl] at hr
      omega
    · have hne : (p.row == r) = false := by
        simpa using hpr
      rw [hne] at h
      simp only [if_neg (fun hc : r = p.row => hpr hc.symm)] at hr
      omega

/-- The number of placements a zipped assignment sends to a row is the
assignment's count of that row. -/
theorem countP_row_zip (r : Row) :
    ∀ (hand : List Nat) (a : List Row), hand.length = a.length →
      ((hand.zip a).map (fun cr => Placement.mk cr.1 cr.2)).countP
          (fun p => p.row == r) = a.count r := by
  intro hand
  induction hand with
  | nil =>
    intro a h
    cases a with
    | nil => simp
    | cons r0 t0 => simp at h
  | cons c t ih =>
    intro a h
    cases a with
    | nil => simp at h
    | cons r0 t0 =>
      simp only [List.zip_cons_cons, List.map_cons, List.countP_cons, List.count_cons]
      rw [ih t0 (by simpa using h)]

/-- Zipping the hand with an assignment and reading back the cards gives
the hand, as long as the assignment is at least as long. -/
theorem map_card_zip (hand : List Nat) (a : List Row) (h : hand.length ≤ a.length) :
    ((hand.zip a).map (fun cr => Placement.mk cr.1 cr.2)).map (fun p => p.card) = hand := by
  rw [List.map_map]
  have hcomp : ((fun p : Placement => p.card) ∘ fun cr : Nat × Row => Placement.mk cr.1 cr.2)
      = Prod.fst := rfl
  rw [hcomp]
  exact List.map_fst_zip hand a h

/-- C3 (amended): every option produced by the initial-deal generator
assigns all 5 hand cards with no discard; the capacity filter is against
the absolute row capacities (front 3, middle 5, back 5), ignoring current
board occupancy, so on an empty board — the ordinary initial deal — every
generated option applies to the live board without ever reaching
`place_card`'s RowFull branch. -/
theorem initial_placements_safe (st : GameState)
    (hhand : st.hand.length = 5) (hboard : st.board = {}) :
    ∀ opt ∈ _generate_initial_placements st,
      opt.2 = none ∧
      opt.1.map (fun p => p.card) = st.hand ∧
      (applyPlacements st.board opt.1).isSome = true := by
  intro opt hopt
  have hopt2 := mem_of_mem_dedupByKey
    (fun o : List Placement × Option Nat => placementKey o.1) _ _ _ hopt
  simp only [List.mem_map, List.mem_filter] at hopt2
  obtain ⟨a, ⟨hamem, hafits⟩, rfl⟩ := hopt2
  have halen : a.length = 5 := length_of_mem_rowProduct rowsList 5 a hamem
  refine ⟨rfl, map_card_zip st.hand a (by omega), ?_⟩
  apply applyPlacements_isSome
  intro r
  rw [countP_row_zip r st.hand a (by omega)]
  have hfit : a.count r ≤ ROW_CAPACITY r := by
    simp only [assignmentFits, rowsList, List.all_cons, List.all_nil, Bool.and_true,
      Bool.and_eq_true, decide_eq_true_eq] at hafits
    cases r
    · exact hafits.1
    · exact hafits.2.1
    · exact hafits.2.2
  rw [hboard]
  cases r <;> simpa [OFCBoard.row] using hfit

/-- C3 witness: on an empty board with hand 2c 3c 4c 5c 6c, the first
generated option (three cards to the front, two to the middle) has no
discard, places all five hand cards and applies cleanly. -/
theorem initial_placements_safe_witness :
    (([Placement.mk 0 Row.FRONT, Placement.mk 4 Row.FRONT, Placement.mk 8 Row.FRONT,
        Placement.mk 12 Row.MIDDLE, Placement.mk 16 Row.MIDDLE],
      (none : Option Nat)).2 = none ∧
     ([Placement.mk 0 Row.FRONT, Placement.mk 4 Row.FRONT, Placement.mk 8 Row.FRONT,
        Placement.mk 12 Row.MIDDLE, Placement.mk 16 Row.MIDDLE],
      (none : Option Nat)).1.map (fun p => p.card)
        = (GameState.mk {} {} [0, 4, 8, 12, 16] [] false 0).hand ∧
     (applyPlacements (GameState.mk {} {} [0, 4, 8, 12, 16] [] false 0).board
        ([Placement.mk 0 Row.FRONT, Placement.mk 4 Row.FRONT, Placement.mk 8 Row.FRONT,
          Placement.mk 12 Row.MIDDLE, Placement.mk 16 Row.MIDDLE],
         (none : Option Nat)).1).isSome = true) :=
  initial_placements_safe (GameState.mk {} {} [0, 4, 8, 12, 16] [] false 0)
    (by decide) rfl
    ([Placement.mk 0 Row.FRONT, Placement.mk 4 Row.FRONT, Placement.mk 8 Row.FRONT,
        Placement.mk 12 Row.MIDDLE, Placement.mk 16 Row.MIDDLE],
      (none : Option Nat))
    (by decide)

/-- C3 counterexample: at round 0 with a card already in the front row,
the generator still emits an option sending three hand cards to the front;
applying that option to the live board overflows the front row, so the
RowFull branch of `place_card` is reachable for a generated option. -/
theorem initial_placements_counterexample :
    ((_generate_initial_placements
        (GameState.mk (OFCBoard.mk [20] [] []) {} [0, 4, 8, 12, 16] [] false 0)).any
      (fun o => (applyPlacements (OFCBoard.mk [20] [] []) o.1).isNone)) = true := by
  decide

/-- C7: card formatting is the exact inverse of parsing.  For every card
value 0..51 parsing the formatted token returns the card; every valid
token (a rank character and a suit character, both cases accepted, plus
the "10"-prefixed Ten forms) parses and parse-then-format yields its
canonical 2-character form; parsing fails on any token of the wrong
length (other than the "10" exception) and on an unrecognized rank or
suit character. -/
theorem card_token_roundtrip :
    ((List.range 52).all (fun c => card_from_str (card_to_str c) == some c) = true) ∧
    (validTokens.all (fun t =>
      match card_from_str t with
      | some c => card_to_str c == canonicalTok t
      | none => false) = true) ∧
    (∀ l : List Char, l.length ≠ 2 → (l.length = 3 → l.take 2 ≠ ['1', '0']) →
      card_from_str l = none) ∧
    (∀ r su : Char, rankMap r.toUpper = none ∨ suitMap su.toLower = none →
      card_from_str [r, su] = none) := by
  refine ⟨by decide, by decide, ?_, ?_⟩
  · intro l hlen h10
    have hcond : (l.length == 3 && l.take 2 == ['1', '0']) = false := by
      by_cases h3 : l.length = 3
      · have ht := h10 h3
        simp [h3, ht]
      · simp [h3]
    simp [card_from_str, hcond, hlen]
  · intro r su h
    rcases h with h | h
    · simp [card_from_str, h]
    · cases hr : rankMap r.toUpper <;> simp [card_from_str, h, hr]

/-- One step of the binomial loop is an exact division. -/
theorem choose_mul_div_step (n i : Nat) :
    Nat.choose n i * (n - i) / (i + 1) = Nat.choose n (i + 1) := by
  rw [← Nat.choose_succ_right_eq]
  exact Nat.mul_div_cancel _ (Nat.succ_pos i)

/-- Binomial coefficients grow up to the middle index. -/
theorem choose_mono_of_le_half (n : Nat) :
    ∀ (kp j : Nat), j ≤ kp → kp ≤ n / 2 → Nat.choose n j ≤ Nat.choose n kp := by
  intro kp
  induction kp with
  | zero =>
    intro j hj _
    have hj0 : j = 0 := by omega
    subst hj0
    exact le_refl _
  | succ k ih =>
    intro j hj hk2
    rcases Nat.lt_or_ge j (k + 1) with hlt | hge
    · calc Nat.choose n j ≤ Nat.choose n k := ih j (by omega) (by omega)
        _ ≤ Nat.choose n (k + 1) := Nat.choose_le_succ_of_lt_half_left (by omega)
    · have hj2 : j = k + 1 := by omega
      subst hj2
      exact le_refl _

/-- The capped loop of `_max_combinations`, started at index `i` with the
exact binomial as its running value, computes the capped binomial. -/
theorem maxCombGo_spec (n kp : Nat) (hhalf : kp ≤ n / 2) :
    ∀ (steps i : Nat), i + steps = kp → Nat.choose n i ≤ 1000000 →
      maxCombGo n steps i (Nat.choose n i) = min (Nat.choose n kp) 1000000 := by
  intro steps
  induction steps with
  | zero =>
    intro i hi hle
    have hik : i = kp := by omega
    subst hik
    simp [maxCombGo, Nat.min_eq_left hle]
  | succ s ih =>
    intro i hi hle
    simp only [maxCombGo, choose_mul_div_step]
    split_ifs with hcap
    · have hmono : Nat.choose n (i + 1) ≤ Nat.choose n kp :=
        choose_mono_of_le_half n kp (i + 1) (by omega) hhalf
      rw [Nat.min_eq_right (by omega)]
    · exact ih (i + 1) (by omega) (by omega)

/-- The `_max_combinations` helper is exactly the binomial coefficient
capped at 1,000,000. -/
theorem max_combinations_eq (n k : Nat) :
    _max_combinations n k = min (Nat.choose n k) 1000000 := by
  unfold _max_combinations
  split_ifs with h1 h2
  · rw [Nat.choose_eq_zero_of_lt h1]
    simp
  · have hcase : k = 0 ∨ k = n := by
      simpa using h2
    rcases hcase with rfl | rfl
    · simp [Nat.choose_zero_right]
    · simp [Nat.choose_self]
  · have hk : k ≤ n := by omega
    have hhalf : min k (n - k) ≤ n / 2 := by omega
    have hloop := maxCombGo_spec n (min k (n - k)) hhalf (min k (n - k)) 0
      (by omega) (by rw [Nat.choose_zero_right]; omega)
    rw [Nat.choose_zero_right] at hloop
    rw [hloop]
    rcases Nat.le_total k (n - k) with hle | hle
    · rw [Nat.min_eq_left hle]
    · rw [Nat.min_eq_right hle, Nat.choose_symm hk]

/-- C4 (amended): for a candidate placement whose application leaves the
board incomplete, the Monte-Carlo evaluator runs exactly
`min(requested_trials, min(C(unseen, slots_needed), 1_000_000))` trials —
the combinatorial fallback is capped at 1,000,000 — where `unseen` is 52
minus the known cards (both boards, hand, dead cards, placed cards, any
discard) and `slots_needed` is the number of empty board slots; the
candidate's expected value is the mean of all trial scores (0 when no
trial runs). -/
theorem evaluate_placement_trials (st : GameState) (placements : List Placement)
    (discard : Option Nat) (n : Nat) (draws : Nat → List Nat) (board : OFCBoard)
    (happly : applyPlacements st.board placements = some board)
    (htotal : board.total_cards < 13) :
    _evaluate_placement st placements discard n draws =
      some (
        let known := st.all_known_cards ++ placements.map (fun p => p.card)
          ++ discard.toList
        let unseen := ((List.range 52).filter (fun c => !known.contains c)).length
        let slots := 13 - board.total_cards
        let trials := min n (min (Nat.choose unseen slots) 1000000)
        if 0 < trials then
          ((((List.range trials).map
              (fun i => _score_board (_fill_board_greedy board (draws i)))).sum : Int) : ℚ)
            / (trials : ℚ)
        else 0) := by
  have hc : board.is_complete = false := by
    simp only [OFCBoard.is_complete, beq_eq_false_iff_ne, ne_eq]
    omega
  have hs : (13 - board.total_cards == 0) = false := by
    simp only [beq_eq_false_iff_ne, ne_eq]
    omega
  simp only [_evaluate_placement, happly, hc, Bool.false_eq_true, if_false, hs,
    actual_sims, max_combinations_eq]

/-- C4 witness: the trial-count and mean theorem applied to a concrete
nearly-complete board (11 cards placed, two back slots open, an empty
placement list and 2 requested trials, which evaluates to expected value
45/2). -/
theorem evaluate_placement_trials_witness :
    _evaluate_placement
      (GameState.mk (OFCBoard.mk [0, 4, 8] [12, 16, 20, 24, 28] [32, 36, 40]) {} [] []
        false 1)
      [] none 2 (fun i => [44 + i, 48 + i]) =
      some (
        let known := (GameState.mk (OFCBoard.mk [0, 4, 8] [12, 16, 20, 24, 28]
            [32, 36, 40]) {} [] [] false 1).all_known_cards
          ++ ([] : List Placement).map (fun p => p.card)
          ++ (none : Option Nat).toList
        let unseen := ((List.range 52).filter (fun c => !known.contains c)).length
        let slots := 13 - (OFCBoard.mk [0, 4, 8] [12, 16, 20, 24, 28]
          [32, 36, 40]).total_cards
        let trials := min 2 (min (Nat.choose unseen slots) 1000000)
        if 0 < trials then
          ((((List.range trials).map
              (fun i => _score_board (_fill_board_greedy
                (OFCBoard.mk [0, 4, 8] [12, 16, 20, 24, 28] [32, 36, 40])
                ((fun j => [44 + j, 48 + j]) i)))).sum : Int) : ℚ)
            / (trials : ℚ)
        else 0) :=
  evaluate_placement_trials
    (GameState.mk (OFCBoard.mk [0, 4, 8] [12, 16, 20, 24, 28] [32, 36, 40]) {} [] []
      false 1)
    [] none 2 (fun i => [44 + i, 48 + i])
    (OFCBoard.mk [0, 4, 8] [12, 16, 20, 24, 28] [32, 36, 40]) rfl (by decide)

/-- C4 counterexample: on the initial deal (empty board, 5 hand cards all
placed in the back and middle rows), 8 slots remain and 47 cards are
unseen; with 2,000,000 requested trials the code runs
`actual_sims = 1,000,000` trials, not `min(2,000,000, C(47,8)) =
2,000,000` as the uncapped reading claims. -/
theorem evaluate_placement_trials_counterexample :
    (applyPlacements ({} : OFCBoard)
        [Placement.mk 0 Row.BACK, Placement.mk 4 Row.BACK, Placement.mk 8 Row.BACK,
         Placement.mk 12 Row.MIDDLE, Placement.mk 16 Row.MIDDLE]).map
      (fun b => 13 - b.total_cards) = some 8 ∧
    ((List.range 52).filter (fun c =>
      !((GameState.mk {} {} [0, 4, 8, 12, 16] [] false 0).all_known_cards
        ++ ([Placement.mk 0 Row.BACK, Placement.mk 4 Row.BACK, Placement.mk 8 Row.BACK,
             Placement.mk 12 Row.MIDDLE, Placement.mk 16 Row.MIDDLE].map
              (fun p => p.card))
        ++ (none : Option Nat).toList).contains c)).length = 47 ∧
    actual_sims 2000000 47 8 = 1000000 ∧
    min 2000000 (Nat.choose 47 8) = 2000000 := by
  refine ⟨by decide, by decide, by decide, ?_⟩
  have hch : Nat.choose 47 8 = 314457495 := by
    rw [Nat.choose_eq_descFactorial_div_factorial]
    decide
  rw [hch]
  decide

/-- Membership in an EV-ordered insertion. -/
theorem mem_insertByEVDesc (x z : List Placement × Option Nat × ℚ) :
    ∀ l, z ∈ insertByEVDesc x l ↔ z = x ∨ z ∈ l := by
  intro l
  induction l with
  | nil => simp [insertByEVDesc]
  | cons y t ih =>
    unfold insertByEVDesc
    split_ifs with hle
    · constructor
      · intro h
        rcases List.mem_cons.mp h with h | h
        · exact Or.inl h
        · exact Or.inr h
      · intro h
        rcases h with h | h
        · exact h ▸ List.mem_cons_self x (y :: t)
        · exact List.mem_cons_of_mem x h
    · constructor
      · intro h
        rcases List.mem_cons.mp h with h | h
        · exact Or.inr (h ▸ List.mem_cons_self y t)
        · rcases (ih).mp h with h | h
          · exact Or.inl h
          · exact Or.inr (List.mem_cons_of_mem y h)
      · intro h
        rcases h with h | h
        · exact List.mem_cons_of_mem y ((ih).mpr (Or.inl h))
        · rcases List.mem_cons.mp h with h | h
          · exact h ▸ List.mem_cons_self y _
          · exact List.mem_cons_of_mem y ((ih).mpr (Or.inr h))

/-- EV-ordered insertion preserves descending order. -/
theorem pairwise_insertByEVDesc (x : List Placement × Option Nat × ℚ) :
    ∀ l, l.Pairwise (fun a b => b.2.2 ≤ a.2.2) →
      (insertByEVDesc x l).Pairwise (fun a b => b.2.2 ≤ a.2.2) := by
  intro l
  induction l with
  | nil => intro _; simp [insertByEVDesc]
  | cons y t ih =>
    intro hl
    rcases List.pairwise_cons.mp hl with ⟨hy, ht⟩
    unfold insertByEVDesc
    split_ifs with hle
    · refine List.pairwise_cons.mpr ⟨?_, hl⟩
      intro z hz
      rcases List.mem_cons.mp hz with h | h
      · exact h ▸ hle
      · exact le_trans (hy z h) hle
    · refine List.pairwise_cons.mpr ⟨?_, ih ht⟩
      intro z hz
      rcases (mem_insertByEVDesc x z t).mp hz with h | h
      · exact h ▸ le_of_not_le hle
      · exact hy z h

/-- The stable sort is descending in expected value. -/
theorem pairwise_sortByEVDesc :
    ∀ l, (sortByEVDesc l).Pairwise (fun a b => b.2.2 ≤ a.2.2) := by
  intro l
  induction l with
  | nil => simp [sortByEVDesc]
  | cons x t ih => exact pairwise_insertByEVDesc x (sortByEVDesc t) ih

/-- Inserting into the EV-ordered list keeps every equal-EV band in
order: the entries of a given expected value are the inserted one (when
it has that value) followed by the existing ones. -/
theorem filter_insertByEVDesc (x : List Placement × Option Nat × ℚ) (q : ℚ) :
    ∀ l, (insertByEVDesc x l).filter (fun z => z.2.2 == q)
      = (if x.2.2 == q then [x] else []) ++ l.filter (fun z => z.2.2 == q) := by
  intro l
  induction l with
  | nil =>
    by_cases hx : (x.2.2 == q) = true <;> simp [insertByEVDesc, List.filter, hx]
  | cons y t ih =>
    unfold insertByEVDesc
    by_cases hle : y.2.2 ≤ x.2.2
    · rw [if_pos hle]
      by_cases hx : (x.2.2 == q) = true <;> simp [List.filter_cons, hx]
    · rw [if_neg hle, List.filter_cons, ih]
      by_cases hx : (x.2.2 == q) = true
      · by_cases hy : (y.2.2 == q) = true
        · exact absurd (le_of_eq ((beq_iff_eq.mp hy).trans (beq_iff_eq.mp hx).symm)) hle
        · simp [List.filter_cons, hx, hy]
      · by_cases hy : (y.2.2 == q) = true <;> simp [List.filter_cons, hx, hy]

/-- The stable sort keeps each equal-EV band in its original
enumeration order. -/
theorem filter_sortByEVDesc (q : ℚ) :
    ∀ l, (sortByEVDesc l).filter (fun z => z.2.2 == q)
      = l.filter (fun z => z.2.2 == q) := by
  intro l
  induction l with
  | nil => rfl
  | cons x t ih =>
    show (insertByEVDesc x (sortByEVDesc t)).filter (fun z => z.2.2 == q) = _
    rw [filter_insertByEVDesc x q (sortByEVDesc t), ih, List.filter_cons]
    by_cases hx : (x.2.2 == q) = true <;> simp [hx]

/-- C8: whenever `solve` returns a result (its candidate list was
non-empty and every evaluation succeeded, `scored` being the evaluated
options in enumeration order), the returned option list is the stable
descending sort of `scored`: it is sorted by expected value descending,
each equal-EV band keeps its original enumeration order, the head is the
recommended best placement (its fields are the result's placements,
discard and expected value), and no option beats the head's expected
value. -/
theorem solve_sorted (st : GameState) (n : Nat) (draws : Nat → Nat → List Nat)
    (res : SolverResult) (scored : List (List Placement × Option Nat × ℚ))
    (hres : solve st n draws = some res)
    (hscored : listTraverse
      (((if st.is_initial_deal then _generate_initial_placements st
        else _generate_pineapple_placements st)).enum.map (fun io =>
          (_evaluate_placement st io.2.1 io.2.2 n (draws io.1)).map
            (fun ev => (io.2.1, io.2.2, ev)))) = some scored) :
    res.all_options = sortByEVDesc scored ∧
    res.all_options.Pairwise (fun a b => b.2.2 ≤ a.2.2) ∧
    (∀ q : ℚ, res.all_options.filter (fun z => z.2.2 == q)
      = scored.filter (fun z => z.2.2 == q)) ∧
    res.all_options.head? = some (res.placements, res.discard, res.expected_value) ∧
    (∀ z ∈ res.all_options, z.2.2 ≤ res.expected_value) := by
  simp only [solve] at hres
  rw [hscored] at hres
  by_cases hemp : ((if st.is_initial_deal then _generate_initial_placements st
      else _generate_pineapple_placements st)).isEmpty
  · rw [if_pos hemp] at hres
    exact absurd hres (by simp)
  · rw [if_neg hemp] at hres
    rw [Option.some_bind] at hres
    rcases hsort : sortByEVDesc scored with _ | ⟨best, rest⟩
    · rw [hsort] at hres
      exact absurd hres (by simp)
    · rw [hsort] at hres
      obtain rfl : res = _ := (Option.some.inj hres).symm
      have hpw : (best :: rest).Pairwise
          (fun a b : List Placement × Option Nat × ℚ => b.2.2 ≤ a.2.2) := by
        rw [← hsort]
        exact pairwise_sortByEVDesc scored
      refine ⟨rfl, hpw, ?_, by simp, ?_⟩
      · intro q
        rw [← hsort]
        exact filter_sortByEVDesc q scored
      · intro z hz
        rcases List.mem_cons.mp hz with h | h
        · exact le_of_eq (by rw [h])
        · exact (List.pairwise_cons.mp hpw).1 z h

/-- Heap evolution discipline: from `h` to `h2` the heap only grows, and
every object below the watermark `n0` is untouched. -/
def Pres (n0 : Nat) (h h2 : Heap) : Prop :=
  h.length ≤ h2.length ∧ ∀ j, j < n0 → hGet h2 j = hGet h j

theorem pres_rfl (n0 : Nat) (h : Heap) : Pres n0 h h :=
  ⟨le_refl _, fun _ _ => rfl⟩

theorem pres_trans {n0 : Nat} {h1 h2 h3 : Heap}
    (a : Pres n0 h1 h2) (b : Pres n0 h2 h3) : Pres n0 h1 h3 :=
  ⟨le_trans a.1 b.1, fun j hj => (b.2 j hj).trans (a.2 j hj)⟩

theorem hGet_append (h : Heap) (b : OFCBoard) (j : Nat) (hj : j < h.length) :
    hGet (h ++ [b]) j = hGet h j := by
  simp [hGet, List.getD, List.getElem?_append_left hj]

theorem hGet_set_ne (h : Heap) (i j : Nat) (b : OFCBoard) (hne : j ≠ i) :
    hGet (h.set i b) j = hGet h j := by
  simp [hGet, List.getD, List.getElem?_set_ne (Ne.symm hne)]

/-- Copying only allocates: the copy preserves everything below the end
of the heap (and so below any smaller watermark). -/
theorem pres_hCopy (n0 : Nat) (h : Heap) (i : Nat) (hn : n0 ≤ h.length) :
    Pres n0 h (hCopy h i).1 := by
  refine ⟨by simp [hCopy], fun j hj => hGet_append h _ j (lt_of_lt_of_le hj hn)⟩

/-- The copy's reference is the old heap end. -/
theorem hCopy_ref (h : Heap) (i : Nat) : (hCopy h i).2 = h.length := rfl

/-- The copy extends the heap by one. -/
theorem hCopy_length (h : Heap) (i : Nat) : (hCopy h i).1.length = h.length + 1 := by
  simp [hCopy]

/-- Mutating at or above the watermark preserves everything below it. -/
theorem pres_hPlace {n0 : Nat} {h h2 : Heap} {i : Nat} {r : Row} {c : Nat}
    (hi : n0 ≤ i) (hp : hPlace h i r c = some h2) : Pres n0 h h2 := by
  unfold hPlace at hp
  revert hp
  cases hpc : (hGet h i).place_card r c with
  | none => intro hp; cases hp
  | some b2 =>
    intro hp
    obtain rfl : h.set i b2 = h2 := Option.some.inj hp
    exact ⟨by simp, fun j hj => hGet_set_ne h i j b2 (by omega)⟩

theorem pres_hApplyPlacements {n0 : Nat} {i : Nat} (hi : n0 ≤ i) :
    ∀ (ps : List Placement) (h h2 : Heap),
      hApplyPlacements h i ps = some h2 → Pres n0 h h2 := by
  intro ps
  induction ps with
  | nil =>
    intro h h2 hp
    obtain rfl : h = h2 := Option.some.inj hp
    exact pres_rfl n0 h
  | cons p t ih =>
    intro h h2 hp
    unfold hApplyPlacements at hp
    revert hp
    cases hpl : hPlace h i p.row p.card with
    | none => intro hp; cases hp
    | some hmid =>
      intro hp
      exact pres_trans (pres_hPlace hi hpl) (ih hmid h2 hp)

theorem pres_hFillRow {n0 : Nat} {i : Nat} (r : Row) (hi : n0 ≤ i) :
    ∀ (cards : List Nat) (h : Heap), Pres n0 h (hFillRow h i r cards).1 := by
  intro cards
  induction cards with
  | nil => intro h; exact pres_rfl n0 h
  | cons c t ih =>
    intro h
    unfold hFillRow
    split_ifs with hcp
    · cases hpl : hPlace h i r c with
      | none => exact pres_rfl n0 h
      | some h2 => exact pres_trans (pres_hPlace hi hpl) (ih h2)
    · exact pres_rfl n0 h

theorem pres_hFillGreedy {n0 : Nat} {i : Nat} (hi : n0 ≤ i) (h : Heap)
    (cards : List Nat) : Pres n0 h (hFillGreedy h i cards) := by
  unfold hFillGreedy
  exact pres_trans (pres_hFillRow Row.BACK hi cards h)
    (pres_trans (pres_hFillRow Row.MIDDLE hi _ _) (pres_hFillRow Row.FRONT hi _ _))

theorem pres_hTrialLoop {n0 : Nat} (bi : Nat) (draws : Nat → List Nat) :
    ∀ (idxs : List Nat) (h : Heap), n0 ≤ h.length →
      Pres n0 h (hTrialLoop bi draws idxs h).1 := by
  intro idxs
  induction idxs with
  | nil => intro h _; exact pres_rfl n0 h
  | cons i rest ih =>
    intro h hn
    unfold hTrialLoop
    have h1 : Pres n0 h (hCopy h bi).1 := pres_hCopy n0 h bi hn
    have h2 : Pres n0 (hCopy h bi).1
        (hFillGreedy (hCopy h bi).1 (hCopy h bi).2 (draws i)) :=
      pres_hFillGreedy (by rw [hCopy_ref]; omega) _ _
    have h3 := ih (hFillGreedy (hCopy h bi).1 (hCopy h bi).2 (draws i))
      (le_trans hn (le_trans h1.1 h2.1))
    exact pres_trans h1 (pres_trans h2 h3)

theorem pres_hEvaluatePlacement {n0 : Nat} {h h2 : Heap} {ev : ℚ}
    (st : HGameState) (placements : List Placement) (discard : Option Nat)
    (n : Nat) (draws : Nat → List Nat) (hn : n0 ≤ h.length)
    (hrun : hEvaluatePlacement h st placements discard n draws = some (h2, ev)) :
    Pres n0 h h2 := by
  unfold hEvaluatePlacement at hrun
  revert hrun
  cases hap : hApplyPlacements (hCopy h st.boardRef).1 (hCopy h st.boardRef).2
      placements with
  | none => intro hrun; cases hrun
  | some hmid =>
    intro hrun
    have hc : Pres n0 h (hCopy h st.boardRef).1 := pres_hCopy n0 h st.boardRef hn
    have ha : Pres n0 (hCopy h st.boardRef).1 hmid :=
      pres_hApplyPlacements (by rw [hCopy_ref]; omega) placements _ hmid hap
    have hm : Pres n0 h hmid := pres_trans hc ha
    have hrun2 : (if (hGet hmid (hCopy h st.boardRef).2).is_complete then
          some (hmid, (_score_board (hGet hmid (hCopy h st.boardRef).2) : ℚ))
        else if 13 - (hGet hmid (hCopy h st.boardRef).2).total_cards == 0 then
          some (hmid, (_score_board (hGet hmid (hCopy h st.boardRef).2) : ℚ))
        else
          some ((hEvalRun hmid st placements discard n
              (hCopy h st.boardRef).2 draws).1,
            if 0 < hEvalActual hmid st placements discard n
                (hCopy h st.boardRef).2 then
              (((hEvalRun hmid st placements discard n
                  (hCopy h st.boardRef).2 draws).2 : Int) : ℚ)
                / ((hEvalActual hmid st placements discard n
                  (hCopy h st.boardRef).2 : Nat) : ℚ)
            else 0)) = some (h2, ev) := hrun
    clear hrun
    revert hrun2
    split_ifs with hcompl hslots
    · intro hrun
      obtain rfl : hmid = h2 := congrArg Prod.fst (Option.some.inj hrun)
      exact hm
    · intro hrun
      obtain rfl : hmid = h2 := congrArg Prod.fst (Option.some.inj hrun)
      exact hm
    · intro hrun
      have ht : Pres n0 hmid (hEvalRun hmid st placements discard n
          (hCopy h st.boardRef).2 draws).1 :=
        pres_hTrialLoop (hCopy h st.boardRef).2 draws _ hmid
          (le_trans hn (le_trans hc.1 ha.1))
      obtain rfl : (hEvalRun hmid st placements discard n
          (hCopy h st.boardRef).2 draws).1 = h2 :=
        congrArg Prod.fst (Option.some.inj hrun)
      exact pres_trans hm ht
    · intro hrun
      have ht : Pres n0 hmid (hEvalRun hmid st placements discard n
          (hCopy h st.boardRef).2 draws).1 :=
        pres_hTrialLoop (hCopy h st.boardRef).2 draws _ hmid
          (le_trans hn (le_trans hc.1 ha.1))
      obtain rfl : (hEvalRun hmid st placements discard n
          (hCopy h st.boardRef).2 draws).1 = h2 :=
        congrArg Prod.fst (Option.some.inj hrun)
      exact pres_trans hm ht

theorem pres_hTryPlacePairs {n0 : Nat} {i : Nat} (hi : n0 ≤ i) :
    ∀ (prs : List (Nat × Row)) (h : Heap), Pres n0 h (hTryPlacePairs h i prs).1 := by
  intro prs
  induction prs with
  | nil => intro h; exact pres_rfl n0 h
  | cons cr rest ih =>
    intro h
    unfold hTryPlacePairs
    split_ifs with hcp
    · cases hpl : hPlace h i cr.2 cr.1 with
      | none => exact pres_rfl n0 h
      | some h2 => exact pres_trans (pres_hPlace hi hpl) (ih h2)
    · exact pres_rfl n0 h

theorem pres_hComboLoop {n0 : Nat} (bi : Nat) (pcs : List Nat) (dc : Nat) :
    ∀ (combos : List (List Row)) (h : Heap), n0 ≤ h.length →
      Pres n0 h (hComboLoop bi pcs dc combos h).1 := by
  intro combos
  induction combos with
  | nil => intro h _; exact pres_rfl n0 h
  | cons combo rest ih =>
    intro h hn
    unfold hComboLoop
    have hc : Pres n0 h (hCopy h bi).1 := pres_hCopy n0 h bi hn
    have ht : Pres n0 (hCopy h bi).1
        (hTryPlacePairs (hCopy h bi).1 (hCopy h bi).2 (pcs.zip combo)).1 :=
      pres_hTryPlacePairs (by rw [hCopy_ref]; omega) _ _
    have hr := ih (hTryPlacePairs (hCopy h bi).1 (hCopy h bi).2 (pcs.zip combo)).1
      (le_trans hn (le_trans hc.1 ht.1))
    exact pres_trans hc (pres_trans ht hr)

theorem pres_hGenPineapple {n0 : Nat} (h : Heap) (st : HGameState)
    (hn : n0 ≤ h.length) : Pres n0 h (hGenPineapple h st).1 := by
  unfold hGenPineapple
  have h0 := @pres_hComboLoop n0 st.boardRef (st.hand.eraseIdx 0)
    (st.hand.getD 0 0) (rowProduct (rowsList.filter
      (fun r => (hGet h st.boardRef).can_place r)) 2) h hn
  have h1 := @pres_hComboLoop n0 st.boardRef (st.hand.eraseIdx 1)
    (st.hand.getD 1 0) (rowProduct (rowsList.filter
      (fun r => (hGet h st.boardRef).can_place r)) 2) _ (le_trans hn h0.1)
  have h2 := @pres_hComboLoop n0 st.boardRef (st.hand.eraseIdx 2)
    (st.hand.getD 2 0) (rowProduct (rowsList.filter
      (fun r => (hGet h st.boardRef).can_place r)) 2) _
    (le_trans (le_trans hn h0.1) h1.1)
  exact pres_trans h0 (pres_trans h1 h2)

theorem pres_hEvalLoop {n0 : Nat} (st : HGameState) (n : Nat)
    (draws : Nat → Nat → List Nat) :
    ∀ (items : List (Nat × (List Placement × Option Nat))) (h h2 : Heap)
      (scored : List (List Placement × Option Nat × ℚ)),
      n0 ≤ h.length → hEvalLoop st n draws items h = some (h2, scored) →
      Pres n0 h h2 := by
  intro items
  induction items with
  | nil =>
    intro h h2 scored _ hp
    obtain rfl : h = h2 := congrArg Prod.fst (Option.some.inj hp)
    exact pres_rfl n0 h
  | cons io rest ih =>
    intro h h2 scored hn hp
    unfold hEvalLoop at hp
    revert hp
    cases hev : hEvaluatePlacement h st io.2.1 io.2.2 n (draws io.1) with
    | none => intro hp; cases hp
    | some pr =>
      intro hp
      have he : Pres n0 h pr.1 :=
        pres_hEvaluatePlacement st io.2.1 io.2.2 n (draws io.1) hn hev
      rcases Option.map_eq_some'.mp hp with ⟨pr2, hrest, heq⟩
      have hr : Pres n0 pr.1 pr2.1 :=
        ih pr.1 pr2.1 pr2.2 (le_trans hn he.1) hrest
      obtain rfl : pr2.1 = h2 := congrArg Prod.fst heq
      exact pres_trans he hr

/-- C9: `solve` never mutates its input game state.  In the heap model
every board object that existed before the call — in particular the
caller's player and opponent boards — holds exactly the same value
afterwards: all speculative placements and simulated completions go to
freshly allocated copies.  The hand, dead cards, fantasyland flag and
round counter are immutable values of the state record, which the solver
only reads. -/
theorem solve_no_mutation (h : Heap) (st : HGameState) (n : Nat)
    (draws : Nat → Nat → List Nat) (h2 : Heap) (res : SolverResult)
    (hrun : hSolve h st n draws = some (h2, res)) :
    (∀ j, j < h.length → hGet h2 j = hGet h j) ∧
    (st.boardRef < h.length → hGet h2 st.boardRef = hGet h st.boardRef) ∧
    (st.oppRef < h.length → hGet h2 st.oppRef = hGet h st.oppRef) := by
  have hpres : Pres h.length h h2 := by
    unfold hSolve at hrun
    revert hrun
    split_ifs with hround hemp1 hemp2
    · intro hrun; cases hrun
    · intro hrun
      rcases hloop : hEvalLoop st n draws (hGenInitial st).enum h with _ | pr
      · rw [hloop] at hrun; cases hrun
      · rw [hloop, Option.some_bind] at hrun
        have he : Pres h.length h pr.1 :=
          pres_hEvalLoop st n draws (hGenInitial st).enum h pr.1 pr.2
            (le_refl _) hloop
        unfold hPackage at hrun
        revert hrun
        rcases sortByEVDesc pr.2 with _ | ⟨best, rest⟩
        · intro hrun; cases hrun
        · intro hrun
          obtain rfl : pr.1 = h2 := congrArg Prod.fst (Option.some.inj hrun)
          exact he
    · intro hrun; cases hrun
    · intro hrun
      have hg : Pres h.length h (hGenPineapple h st).1 :=
        pres_hGenPineapple h st (le_refl _)
      rcases hloop : hEvalLoop st n draws (hGenPineapple h st).2.enum
          (hGenPineapple h st).1 with _ | pr
      · rw [hloop] at hrun; cases hrun
      · rw [hloop, Option.some_bind] at hrun
        have he : Pres h.length (hGenPineapple h st).1 pr.1 :=
          pres_hEvalLoop st n draws (hGenPineapple h st).2.enum
            (hGenPineapple h st).1 pr.1 pr.2 hg.1 hloop
        unfold hPackage at hrun
        revert hrun
        rcases sortByEVDesc pr.2 with _ | ⟨best, rest⟩
        · intro hrun; cases hrun
        · intro hrun
          obtain rfl : pr.1 = h2 := congrArg Prod.fst (Option.some.inj hrun)
          exact pres_trans hg he
  exact ⟨hpres.2, fun hb => hpres.2 st.boardRef hb, fun hb => hpres.2 st.oppRef hb⟩

/-- C9 witness: the no-mutation theorem applied to a concrete heap run —
the caller's two boards (references 0 and 1) are unchanged after `solve`;
the six boards the call allocated sit above them. -/
theorem solve_no_mutation_witness :
    ((∀ j, j < ([OFCBoard.mk [0, 4, 8] [12, 16, 20, 24, 28] [32, 36, 40],
          {}] : Heap).length →
        hGet [OFCBoard.mk [0, 4, 8] [12, 16, 20, 24, 28] [32, 36, 40], {},
          OFCBoard.mk [0, 4, 8] [12, 16, 20, 24, 28] [32, 36, 40, 48, 1],
          OFCBoard.mk [0, 4, 8] [12, 16, 20, 24, 28] [32, 36, 40, 44, 1],
          OFCBoard.mk [0, 4, 8] [12, 16, 20, 24, 28] [32, 36, 40, 44, 48],
          OFCBoard.mk [0, 4, 8] [12, 16, 20, 24, 28] [32, 36, 40, 48, 1],
          OFCBoard.mk [0, 4, 8] [12, 16, 20, 24, 28] [32, 36, 40, 44, 1],
          OFCBoard.mk [0, 4, 8] [12, 16, 20, 24, 28] [32, 36, 40, 44, 48]] j
          = hGet [OFCBoard.mk [0, 4, 8] [12, 16, 20, 24, 28] [32, 36, 40], {}] j) ∧
     ((HGameState.mk 0 1 [44, 48, 1] [] false 1).boardRef
          < ([OFCBoard.mk [0, 4, 8] [12, 16, 20, 24, 28] [32, 36, 40],
            {}] : Heap).length →
        hGet [OFCBoard.mk [0, 4, 8] [12, 16, 20, 24, 28] [32, 36, 40], {},
          OFCBoard.mk [0, 4, 8] [12, 16, 20, 24, 28] [32, 36, 40, 48, 1],
          OFCBoard.mk [0, 4, 8] [12, 16, 20, 24, 28] [32, 36, 40, 44, 1],
          OFCBoard.mk [0, 4, 8] [12, 16, 20, 24, 28] [32, 36, 40, 44, 48],
          OFCBoard.mk [0, 4, 8] [12, 16, 20, 24, 28] [32, 36, 40, 48, 1],
          OFCBoard.mk [0, 4, 8] [12, 16, 20, 24, 28] [32, 36, 40, 44, 1],
          OFCBoard.mk [0, 4, 8] [12, 16, 20, 24, 28] [32, 36, 40, 44, 48]]
            (HGameState.mk 0 1 [44, 48, 1] [] false 1).boardRef
          = hGet [OFCBoard.mk [0, 4, 8] [12, 16, 20, 24, 28] [32, 36, 40], {}]
            (HGameState.mk 0 1 [44, 48, 1] [] false 1).boardRef) ∧
     ((HGameState.mk 0 1 [44, 48, 1] [] false 1).oppRef
          < ([OFCBoard.mk [0, 4, 8] [12, 16, 20, 24, 28] [32, 36, 40],
            {}] : Heap).length →
        hGet [OFCBoard.mk [0, 4, 8] [12, 16, 20, 24, 28] [32, 36, 40], {},
          OFCBoard.mk [0, 4, 8] [12, 16, 20, 24, 28] [32, 36, 40, 48, 1],
          OFCBoard.mk [0, 4, 8] [12, 16, 20, 24, 28] [32, 36, 40, 44, 1],
          OFCBoard.mk [0, 4, 8] [12, 16, 20, 24, 28] [32, 36, 40, 44, 48],
          OFCBoard.mk [0, 4, 8] [12, 16, 20, 24, 28] [32, 36, 40, 48, 1],
          OFCBoard.mk [0, 4, 8] [12, 16, 20, 24, 28] [32, 36, 40, 44, 1],
          OFCBoard.mk [0, 4, 8] [12, 16, 20, 24, 28] [32, 36, 40, 44, 48]]
            (HGameState.mk 0 1 [44, 48, 1] [] false 1).oppRef
          = hGet [OFCBoard.mk [0, 4, 8] [12, 16, 20, 24, 28] [32, 36, 40], {}]
            (HGameState.mk 0 1 [44, 48, 1] [] false 1).oppRef)) :=
  solve_no_mutation
    [OFCBoard.mk [0, 4, 8] [12, 16, 20, 24, 28] [32, 36, 40], {}]
    (HGameState.mk 0 1 [44, 48, 1] [] false 1) 7 (fun _ _ => [])
    [OFCBoard.mk [0, 4, 8] [12, 16, 20, 24, 28] [32, 36, 40], {},
      OFCBoard.mk [0, 4, 8] [12, 16, 20, 24, 28] [32, 36, 40, 48, 1],
      OFCBoard.mk [0, 4, 8] [12, 16, 20, 24, 28] [32, 36, 40, 44, 1],
      OFCBoard.mk [0, 4, 8] [12, 16, 20, 24, 28] [32, 36, 40, 44, 48],
      OFCBoard.mk [0, 4, 8] [12, 16, 20, 24, 28] [32, 36, 40, 48, 1],
      OFCBoard.mk [0, 4, 8] [12, 16, 20, 24, 28] [32, 36, 40, 44, 1],
      OFCBoard.mk [0, 4, 8] [12, 16, 20, 24, 28] [32, 36, 40, 44, 48]]
    (SolverResult.mk [Placement.mk 44 Row.BACK, Placement.mk 48 Row.BACK] (some 1)
      (55 : ℚ) 7
      [([Placement.mk 44 Row.BACK, Placement.mk 48 Row.BACK], some 1, (55 : ℚ)),
       ([Placement.mk 48 Row.BACK, Placement.mk 1 Row.BACK], some 44, (-10 : ℚ)),
       ([Placement.mk 44 Row.BACK, Placement.mk 1 Row.BACK], some 48, (-10 : ℚ))])
    (by decide)

/-- C8 witness: the sortedness theorem applied to a concrete pineapple
state (front and middle full, two back slots open, hand K♣ A♣ 2♦) whose
three candidate options score -10, -10 and 55; the returned list is the
stable descending sort with the 55-option first. -/
theorem solve_sorted_witness :
    (SolverResult.mk [Placement.mk 44 Row.BACK, Placement.mk 48 Row.BACK] (some 1)
        (55 : ℚ) 7
        [([Placement.mk 44 Row.BACK, Placement.mk 48 Row.BACK], some 1, (55 : ℚ)),
         ([Placement.mk 48 Row.BACK, Placement.mk 1 Row.BACK], some 44, (-10 : ℚ)),
         ([Placement.mk 44 Row.BACK, Placement.mk 1 Row.BACK], some 48,
           (-10 : ℚ))]).all_options
      = sortByEVDesc
        [([Placement.mk 48 Row.BACK, Placement.mk 1 Row.BACK], some 44, (-10 : ℚ)),
         ([Placement.mk 44 Row.BACK, Placement.mk 1 Row.BACK], some 48, (-10 : ℚ)),
         ([Placement.mk 44 Row.BACK, Placement.mk 48 Row.BACK], some 1, (55 : ℚ))] ∧
    (SolverResult.mk [Placement.mk 44 Row.BACK, Placement.mk 48 Row.BACK] (some 1)
        (55 : ℚ) 7
        [([Placement.mk 44 Row.BACK, Placement.mk 48 Row.BACK], some 1, (55 : ℚ)),
         ([Placement.mk 48 Row.BACK, Placement.mk 1 Row.BACK], some 44, (-10 : ℚ)),
         ([Placement.mk 44 Row.BACK, Placement.mk 1 Row.BACK], some 48,
           (-10 : ℚ))]).all_options.Pairwise (fun a b => b.2.2 ≤ a.2.2) ∧
    (∀ q : ℚ,
      (SolverResult.mk [Placement.mk 44 Row.BACK, Placement.mk 48 Row.BACK] (some 1)
          (55 : ℚ) 7
          [([Placement.mk 44 Row.BACK, Placement.mk 48 Row.BACK], some 1, (55 : ℚ)),
           ([Placement.mk 48 Row.BACK, Placement.mk 1 Row.BACK], some 44, (-10 : ℚ)),
           ([Placement.mk 44 Row.BACK, Placement.mk 1 Row.BACK], some 48,
             (-10 : ℚ))]).all_options.filter (fun z => z.2.2 == q)
        = [([Placement.mk 48 Row.BACK, Placement.mk 1 Row.BACK], some 44, (-10 : ℚ)),
           ([Placement.mk 44 Row.BACK, Placement.mk 1 Row.BACK], some 48, (-10 : ℚ)),
           ([Placement.mk 44 Row.BACK, Placement.mk 48 Row.BACK], some 1,
             (55 : ℚ))].filter (fun z => z.2.2 == q)) ∧
    (SolverResult.mk [Placement.mk 44 Row.BACK, Placement.mk 48 Row.BACK] (some 1)
        (55 : ℚ) 7
        [([Placement.mk 44 Row.BACK, Placement.mk 48 Row.BACK], some 1, (55 : ℚ)),
         ([Placement.mk 48 Row.BACK, Placement.mk 1 Row.BACK], some 44, (-10 : ℚ)),
         ([Placement.mk 44 Row.BACK, Placement.mk 1 Row.BACK], some 48,
           (-10 : ℚ))]).all_options.head?
      = some ((SolverResult.mk [Placement.mk 44 Row.BACK, Placement.mk 48 Row.BACK]
          (some 1) (55 : ℚ) 7
          [([Placement.mk 44 Row.BACK, Placement.mk 48 Row.BACK], some 1, (55 : ℚ)),
           ([Placement.mk 48 Row.BACK, Placement.mk 1 Row.BACK], some 44, (-10 : ℚ)),
           ([Placement.mk 44 Row.BACK, Placement.mk 1 Row.BACK], some 48,
             (-10 : ℚ))]).placements,
          (SolverResult.mk [Placement.mk 44 Row.BACK, Placement.mk 48 Row.BACK]
            (some 1) (55 : ℚ) 7
            [([Placement.mk 44 Row.BACK, Placement.mk 48 Row.BACK], some 1, (55 : ℚ)),
             ([Placement.mk 48 Row.BACK, Placement.mk 1 Row.BACK], some 44, (-10 : ℚ)),
             ([Placement.mk 44 Row.BACK, Placement.mk 1 Row.BACK], some 48,
               (-10 : ℚ))]).discard,
          (SolverResult.mk [Placement.mk 44 Row.BACK, Placement.mk 48 Row.BACK]
            (some 1) (55 : ℚ) 7
            [([Placement.mk 44 Row.BACK, Placement.mk 48 Row.BACK], some 1, (55 : ℚ)),
             ([Placement.mk 48 Row.BACK, Placement.mk 1 Row.BACK], some 44, (-10 : ℚ)),
             ([Placement.mk 44 Row.BACK, Placement.mk 1 Row.BACK], some 48,
               (-10 : ℚ))]).expected_value) ∧
    (∀ z ∈ (SolverResult.mk [Placement.mk 44 Row.BACK, Placement.mk 48 Row.BACK]
        (some 1) (55 : ℚ) 7
        [([Placement.mk 44 Row.BACK, Placement.mk 48 Row.BACK], some 1, (55 : ℚ)),
         ([Placement.mk 48 Row.BACK, Placement.mk 1 Row.BACK], some 44, (-10 : ℚ)),
         ([Placement.mk 44 Row.BACK, Placement.mk 1 Row.BACK], some 48,
           (-10 : ℚ))]).all_options,
      z.2.2 ≤ (SolverResult.mk [Placement.mk 44 Row.BACK, Placement.mk 48 Row.BACK]
        (some 1) (55 : ℚ) 7
        [([Placement.mk 44 Row.BACK, Placement.mk 48 Row.BACK], some 1, (55 : ℚ)),
         ([Placement.mk 48 Row.BACK, Placement.mk 1 Row.BACK], some 44, (-10 : ℚ)),
         ([Placement.mk 44 Row.BACK, Placement.mk 1 Row.BACK], some 48,
           (-10 : ℚ))]).expected_value) :=
  solve_sorted
    (GameState.mk (OFCBoard.mk [0, 4, 8] [12, 16, 20, 24, 28] [32, 36, 40]) {}
      [44, 48, 1] [] false 1)
    7 (fun _ _ => [])
    (SolverResult.mk [Placement.mk 44 Row.BACK, Placement.mk 48 Row.BACK] (some 1)
      (55 : ℚ) 7
      [([Placement.mk 44 Row.BACK, Placement.mk 48 Row.BACK], some 1, (55 : ℚ)),
       ([Placement.mk 48 Row.BACK, Placement.mk 1 Row.BACK], some 44, (-10 : ℚ)),
       ([Placement.mk 44 Row.BACK, Placement.mk 1 Row.BACK], some 48, (-10 : ℚ))])
    [([Placement.mk 48 Row.BACK, Placement.mk 1 Row.BACK], some 44, (-10 : ℚ)),
     ([Placement.mk 44 Row.BACK, Placement.mk 1 Row.BACK], some 48, (-10 : ℚ)),
     ([Placement.mk 44 Row.BACK, Placement.mk 48 Row.BACK], some 1, (55 : ℚ))]
    (by decide) (by decide)

end OFC
